import Mathlib

/-!
# tsh: a tiny shell with job control (03_shlab/tsh.c)

A shallow embedding of the job-control core of `tsh.c`.

* The global job array `jobs[MAXJOBS]` is a `List job_t`; a pointer
  `struct job_t *` into the array is the index of the slot, and `NULL` is
  `none`.  The loops `for (i = 0; i < MAXJOBS; i++)` scan the slots in order.
* The globals `nextjid` and `verbose`, the text written to stdout and the
  `kill` calls made so far form the record `Shell`.
* `int` arithmetic that can leave the 32-bit range (`nextjid++`,
  `maxjid(jobs)+1`) is wrapped by `int32`; `atoi` saturates to `long` as
  `strtol` does and then keeps the low 32 bits.
* What the operating system decides (the value `fork` returns, the value
  `kill` returns, the children `waitpid` reports) is an argument of the
  function that asks for it.
-/

namespace Tsh

/-! ## Constants -/

/-- The macro MAXJOBS: max jobs at any point in time. -/
def MAXJOBS : Nat := 16

/-- Job state UNDEF. -/
def UNDEF : Int := 0
/-- Job state FG: running in foreground. -/
def FG : Int := 1
/-- Job state BG: running in background. -/
def BG : Int := 2
/-- Job state ST: stopped. -/
def ST : Int := 3

/-- Signal number of SIGCONT (Linux). -/
def SIGCONT : Int := 18

/-- Wrap an integer into the range of a 32-bit `int`. -/
def int32 (x : Int) : Int := (x + 2147483648) % 4294967296 - 2147483648

/-- The largest `int`. -/
def INT_MAX : Int := 2147483647

/-! ## Data model -/

/-- The job struct `struct job_t`. -/
structure job_t where
  pid : Int
  jid : Int
  state : Int
  cmdline : String
deriving DecidableEq, Repr

/-- The global variables of the shell together with its observable effects:
the text written to stdout and the list of `kill(target, sig)` calls. -/
structure Shell where
  jobs : List job_t
  nextjid : Int
  verbose : Bool
  out : String
  kills : List (Int × Int)
deriving DecidableEq, Repr

/-- The effect of `printf` on the shell: the text is appended to stdout. -/
def Shell.print (s : Shell) (text : String) : Shell :=
  { s with out := s.out ++ text }

/-! ## Helper routines that manipulate the job list -/

/-- The function `clearjob`: clear the entries in a job struct. -/
def clearjob (_job : job_t) : job_t :=
  { pid := 0, jid := 0, state := UNDEF, cmdline := "" }

/-- The function `initjobs`: clear every slot of the job list. -/
def initjobs (jobs : List job_t) : List job_t :=
  jobs.map clearjob

/-- The job array as the C runtime zero-initialises it: MAXJOBS slots. -/
def zeroJobs : List job_t :=
  List.replicate MAXJOBS { pid := 0, jid := 0, state := 0, cmdline := "" }

/-- The shell as `main` leaves it after `initjobs(jobs)`: `nextjid = 1`. -/
def initShell (verbose : Bool) : Shell :=
  { jobs := initjobs zeroJobs, nextjid := 1, verbose := verbose, out := "", kills := [] }

/-- The function `maxjid`: largest allocated job id (0 when there is none). -/
def maxjid (jobs : List job_t) : Int :=
  jobs.foldl (fun max j => if j.jid > max then j.jid else max) 0

/-- Index of the first slot that satisfies `p`, scanning from slot 0: the
common shape of the search loops of the helper routines. -/
def findSlot (p : job_t → Bool) : List job_t → Option Nat
  | [] => none
  | j :: js => if p j then some 0 else (findSlot p js).map (· + 1)

/-- The function `addjob`: add a job to the job list.  Returns the `int`
result together with the new globals. -/
def addjob (s : Shell) (pid state : Int) (cmdline : String) : Int × Shell :=
  if pid < 1 then (0, s)
  else
    match findSlot (fun j => j.pid == 0) s.jobs with
    | some i =>
      let job : job_t := { pid := pid, jid := s.nextjid, state := state, cmdline := cmdline }
      let next := int32 (s.nextjid + 1)
      let next := if next > (MAXJOBS : Int) then 1 else next
      let s1 : Shell := { s with jobs := s.jobs.set i job, nextjid := next }
      let s2 := if s.verbose then
          s1.print ("Added job [" ++ toString job.jid ++ "] " ++ toString job.pid ++ " "
            ++ job.cmdline ++ "\n")
        else s1
      (1, s2)
    | none => (0, s.print "Tried to create too many jobs\n")

/-- The function `deletejob`: delete the job whose PID is `pid`. -/
def deletejob (s : Shell) (pid : Int) : Int × Shell :=
  if pid < 1 then (0, s)
  else
    match findSlot (fun j => j.pid == pid) s.jobs with
    | some i =>
      let jobs1 := s.jobs.modify clearjob i
      (1, { s with jobs := jobs1, nextjid := int32 (maxjid jobs1 + 1) })
    | none => (0, s)

/-- The function `fgpid`: PID of the current foreground job, 0 if none. -/
def fgpid (jobs : List job_t) : Int :=
  match jobs.find? (fun j => j.state == FG) with
  | some j => j.pid
  | none => 0

/-- The function `getjobpid`: find a job by PID; the result is the slot. -/
def getjobpid (jobs : List job_t) (pid : Int) : Option Nat :=
  if pid < 1 then none else findSlot (fun j => j.pid == pid) jobs

/-- The function `getjobjid`: find a job by job id; the result is the slot. -/
def getjobjid (jobs : List job_t) (jid : Int) : Option Nat :=
  if jid < 1 then none else findSlot (fun j => j.jid == jid) jobs

/-- The function `pid2jid`: map a process id to a job id (0 when absent). -/
def pid2jid (jobs : List job_t) (pid : Int) : Int :=
  if pid < 1 then 0
  else
    match jobs.find? (fun j => j.pid == pid) with
    | some j => j.jid
    | none => 0

/-! ## Properties of job tables -/

/-- The job ids of the live slots (`pid != 0`), in slot order. -/
def liveJids (jobs : List job_t) : List Int :=
  (jobs.filter (fun j => j.pid != 0)).map (fun j => j.jid)

/-- A slot as `clearjob`, `addjob` and `deletejob` leave it: a free slot has
job id 0, a live slot has a positive job id, and the job id is an `int` below
INT_MAX (so that `maxjid(jobs)+1` does not overflow). -/
def WellFormedJob (j : job_t) : Prop :=
  (j.pid = 0 → j.jid = 0) ∧ (j.pid ≠ 0 → 1 ≤ j.jid) ∧ j.jid < INT_MAX

instance : DecidablePred WellFormedJob := fun j => by
  unfold WellFormedJob; infer_instance

/-- A well-formed job table: every slot is well formed. -/
def WellFormed (jobs : List job_t) : Prop := ∀ j ∈ jobs, WellFormedJob j

instance : DecidablePred WellFormed := fun jobs => by
  unfold WellFormed; infer_instance

/-- A call on the job table made by the shell. -/
inductive Op where
  | add (pid state : Int) (cmdline : String)
  | del (pid : Int)
deriving DecidableEq, Repr

/-- Perform one call, keeping the new globals. -/
def applyOp (s : Shell) : Op → Shell
  | .add p st c => (addjob s p st c).2
  | .del p => (deletejob s p).2

/-- Perform a sequence of calls, first to last. -/
def runOps (s : Shell) (ops : List Op) : Shell := ops.foldl applyOp s

/-- The condition on a call: `addjob` is given a `pid >= 1` that no slot holds. -/
def Op.admissible (s : Shell) : Op → Bool
  | .add p _ _ => decide (1 ≤ p) && s.jobs.all (fun j => j.pid != p)
  | .del _ => true

/-- Every call of the sequence is admissible in the state it is made in. -/
def admissibleRun (s : Shell) : List Op → Bool
  | [] => true
  | op :: ops => op.admissible s && admissibleRun (applyOp s op) ops

/-- Launch `n` background jobs with the pids `100, 101, ...`. -/
def launches (n : Nat) : List Op :=
  (List.range n).map (fun k => Op.add (100 + k) BG "sleep 9 &\n")

/-- Fifteen launches, one job reaped, two more launches. -/
def collisionOps : List Op :=
  launches 15 ++ [Op.del 101, Op.add 200 BG "sleep 9 &\n", Op.add 201 BG "sleep 9 &\n"]

/-- A sample shell: a foreground job (pid 100, job id 1) and a background job
(pid 101, job id 2) have been added to the empty table. -/
def twoJobs : Shell :=
  runOps (initShell false) [Op.add 100 FG "vi a.c\n", Op.add 101 BG "sleep 9 &\n"]

/-- A sample shell whose MAXJOBS slots are all live (pids 100..115). -/
def fullShell : Shell := runOps (initShell false) (launches 16)

/-! ## Strings and the C library -/

/-- The terminating NUL character of a C string. -/
def NUL : Char := Char.ofNat 0

/-- The single-quote character. -/
def QUOTE : Char := Char.ofNat 39

/-- The first character `str[0]` of a C string: NUL when the string is empty. -/
def firstChar (str : List Char) : Char := str.headD NUL

/-- The C library function `isdigit`. -/
def isdigit (c : Char) : Bool := decide (48 ≤ c.toNat ∧ c.toNat ≤ 57)

/-- The C library function `isspace` (in the C locale). -/
def isspace (c : Char) : Bool := decide (c.toNat = 32 ∨ (9 ≤ c.toNat ∧ c.toNat ≤ 13))

/-- The digit loop of `atoi`: accumulate decimal digits until the first
character that is not a digit. -/
def atoiDigits (acc : Int) : List Char → Int
  | [] => acc
  | c :: cs => if isdigit c then atoiDigits (acc * 10 + ((c.toNat : Int) - 48)) cs else acc

/-- The largest `long` (64 bits). -/
def LONG_MAX : Int := 9223372036854775807

/-- The smallest `long` (64 bits). -/
def LONG_MIN : Int := -9223372036854775808

/-- The value `strtol` returns when the numeral denotes `x`: `x` itself, or
LONG_MAX / LONG_MIN when `x` is outside the range of `long`. -/
def strtolClamp (x : Int) : Int :=
  if x > LONG_MAX then LONG_MAX else if x < LONG_MIN then LONG_MIN else x

/-- The C library function `atoi`, which is `(int) strtol(str, NULL, 10)`:
skip white space, read an optional sign and the decimal digits that follow (0
when there are none); the value is saturated to the range of `long` and then
converted to `int`, which keeps its low 32 bits. -/
def atoi (str : List Char) : Int :=
  match str.dropWhile isspace with
  | [] => 0
  | c :: cs =>
    if c = '-' then int32 (strtolClamp (- atoiDigits 0 cs))
    else if c = '+' then int32 (strtolClamp (atoiDigits 0 cs))
    else int32 (strtolClamp (atoiDigits 0 (c :: cs)))

/-- The job a slot pointer points to. -/
def deref (jobs : List job_t) (i : Nat) : job_t :=
  jobs.getD i { pid := 0, jid := 0, state := 0, cmdline := "" }

/-! ## The operating system and the ways a function can end -/

/-- The status `waitpid` stores for a child, with the options
`WNOHANG | WUNTRACED`: the child exited, was terminated by a signal, or was
stopped by a signal. -/
inductive Status where
  | exited (code : Int)
  | signaled (sig : Int)
  | stopped (sig : Int)
deriving DecidableEq, Repr

/-- What the operating system answers to the calls made while one command is
evaluated or one handler runs: the values returned by `fork`, `execve` and
`kill`, the text of `strerror(errno)`, and the children that
`sigchld_handler` reaps when `eval` unblocks SIGCHLD after `addjob` (the
pending signal is delivered there, before the next statement of `eval`). -/
structure Os where
  forkRet : Int
  execveRet : Int
  killRet : Int
  strerror : String
  reaped : List (Int × Status)
deriving DecidableEq, Repr

/-- How a function of the shell ends: it returns; or its last action is the
call `waitfg(pid)`, whose loop is interleaved with the signal handlers; or the
process calls `exit(code)`; or (in the child) `execve` replaced the image; or
its behaviour is undefined, after a write past the end of the array `argv` or
through a NULL pointer. -/
inductive Outcome where
  | ret (s : Shell)
  | waitfg (pid : Int) (s : Shell)
  | exit (code : Int) (s : Shell)
  | exec (argv : List String) (s : Shell)
  | fault (s : Shell)
deriving DecidableEq, Repr

/-- The function `unix_error`: print the message and `exit(1)`. -/
def unix_error (os : Os) (msg : String) (s : Shell) : Outcome :=
  .exit 1 (s.print (msg ++ ": " ++ os.strerror ++ "\n"))

/-- The call `kill(target, sig)` as the shell observes it: it is recorded. -/
def Shell.kill (s : Shell) (target sig : Int) : Shell :=
  { s with kills := s.kills ++ [(target, sig)] }

/-- The assignment `job->state = state` through a slot pointer. -/
def Shell.setState (s : Shell) (i : Nat) (state : Int) : Shell :=
  { s with jobs := s.jobs.modify (fun j => { j with state := state }) i }

/-! ## The SIGCHLD handler -/

/-- The body of the loop of `sigchld_handler` for one reaped child.  The
result is `none` when the body dereferences a NULL pointer. -/
def reap (pid : Int) (status : Status) (s : Shell) : Option Shell :=
  match status with
  | .exited _ => some (deletejob s pid).2
  | .signaled sig =>
    let s1 := s.print ("Job [" ++ toString (pid2jid s.jobs pid) ++ "] (" ++ toString pid
      ++ ") terminated by signal " ++ toString sig ++ "\n")
    some (deletejob s1 pid).2
  | .stopped sig =>
    match getjobpid s.jobs pid with
    | none => none
    | some i =>
      let s1 := s.setState i ST
      some (s1.print ("Job [" ++ toString (pid2jid s1.jobs pid) ++ "] (" ++ toString pid
        ++ ") stopped by signal " ++ toString sig ++ "\n"))

/-- The function `sigchld_handler`.  The argument lists what the successive
`waitpid` calls return; the loop ends at the first `pid <= 0`, and the end of
the list stands for `waitpid` returning no further child. -/
def sigchld_handler : List (Int × Status) → Shell → Option Shell
  | [], s => some s
  | (pid, status) :: rest, s =>
    if pid > 0 then
      match reap pid status s with
      | none => none
      | some s1 => sigchld_handler rest s1
    else some s

/-! ## The built-in commands -/

/-- The loop of `listjobs` from slot `i` on: the text on stdout after it. -/
def listjobsFrom (out : String) : Nat → List job_t → String
  | _, [] => out
  | i, j :: js =>
    if j.pid != 0 then
      let out1 := out ++ "[" ++ toString j.jid ++ "] (" ++ toString j.pid ++ ") "
      let out2 :=
        if j.state = BG then out1 ++ "Running "
        else if j.state = FG then out1 ++ "Foreground "
        else if j.state = ST then out1 ++ "Stopped "
        else out1 ++ "listjobs: Internal error: job[" ++ toString i ++ "].state="
          ++ toString j.state ++ " "
      listjobsFrom (out2 ++ j.cmdline) (i + 1) js
    else listjobsFrom out (i + 1) js

/-- The function `listjobs`: print the job list. -/
def listjobs (s : Shell) : Shell :=
  { s with out := listjobsFrom s.out 0 s.jobs }

/-- The target lookup of `do_bgfg`: the slot `job` and the `pid` to signal,
or the shell after the error message has been printed. -/
def resolveTarget (argv0 arg : String) (s : Shell) : Except Shell (Nat × Int) :=
  if firstChar arg.toList = '%' then
    let jid := atoi arg.toList.tail
    match getjobjid s.jobs jid with
    | none => .error (s.print (arg ++ ": No such job\n"))
    | some i => .ok (i, (deref s.jobs i).pid)
  else if isdigit (firstChar arg.toList) then
    let pid := atoi arg.toList
    match getjobpid s.jobs pid with
    | none => .error (s.print ("(" ++ toString pid ++ "): No such process\n"))
    | some i => .ok (i, pid)
  else .error (s.print (argv0 ++ ": argument must be a PID or %jobid\n"))

/-- The end of `do_bgfg`, after the `kill`: the assignment to `job->state`
through the pointer `job` found earlier (slot `i`), followed by the job line
(`bg`) or by the call `waitfg(job->pid)` (`fg`). -/
def do_bgfgUpdate (argv0 : String) (i : Nat) (s : Shell) : Outcome :=
  if argv0 = "bg" then
    let s2 := s.setState i BG
    let job := deref s2.jobs i
    .ret (s2.print ("[" ++ toString job.jid ++ "] (" ++ toString job.pid ++ ") "
      ++ job.cmdline))
  else
    let s2 := s.setState i FG
    .waitfg (deref s2.jobs i).pid s2

/-- The function `do_bgfg`: execute the built-in `bg` and `fg` commands. -/
def do_bgfg (os : Os) (argv : List String) (s : Shell) : Outcome :=
  let argv0 := argv.headD ""
  match argv.tail.head? with
  | none => .ret (s.print (argv0 ++ " command requires PID or %jobid argument\n"))
  | some arg =>
    match resolveTarget argv0 arg s with
    | .error s1 => .ret s1
    | .ok (i, pid) =>
      let s1 := s.kill (-pid) SIGCONT
      if os.killRet < 0 then unix_error os "do_bgfg ERROR" s1
      else if argv0 = "bg" then
        let s2 := s1.setState i BG
        let job := deref s2.jobs i
        .ret (s2.print ("[" ++ toString job.jid ++ "] (" ++ toString job.pid ++ ") "
          ++ job.cmdline))
      else
        let s2 := s1.setState i FG
        .waitfg (deref s2.jobs i).pid s2

/-- The function `builtin_cmd`: `none` when the command is not a built-in
(the C function returns 0), otherwise how the built-in ended. -/
def builtin_cmd (os : Os) (argv : List String) (s : Shell) : Option Outcome :=
  let cmd := argv.headD ""
  if cmd = "quit" then some (.exit 0 s)
  else if cmd = "jobs" then some (.ret (listjobs s))
  else if cmd = "bg" ∨ cmd = "fg" then some (do_bgfg os argv s)
  else if cmd = "&" then some (.ret s)
  else none

/-! ## The command line -/

/-- The C library function `strchr(buf, c)`: offset of the first `c`. -/
def strchr (buf : List Char) (c : Char) : Option Nat :=
  match buf with
  | [] => none
  | b :: bs => if b = c then some 0 else (strchr bs c).map (· + 1)

/-- Skip the spaces at the start of the buffer: `while (*buf == ' ') buf++`. -/
def skipSpaces (buf : List Char) : List Char := buf.dropWhile (fun c => c == ' ')

/-- The start of the next argument and the offset of its delimiter: after an
opening quote the closing quote, otherwise the next space. -/
def nextDelim (buf : List Char) : List Char × Option Nat :=
  if firstChar buf = QUOTE then (buf.tail, strchr buf.tail QUOTE)
  else (buf, strchr buf ' ')

/-- The `while (delim)` loop of `parseline`: the list of arguments.  Every
round consumes at least the delimiter, so `fuel` above the length of the
buffer is never used up. -/
def parseArgs : Nat → List Char → List (List Char)
  | 0, _ => []
  | fuel + 1, buf0 =>
    match nextDelim buf0 with
    | (_, none) => []
    | (buf, some d) => buf.take d :: parseArgs fuel (skipSpaces (buf.drop (d + 1)))

/-- The macro MAXARGS: max args on a command line (the size of `argv`). -/
def MAXARGS : Nat := 128

/-- The arguments the `while (delim)` loop of `parseline` finds on a command
line, before the test for a trailing `&`. -/
def cmdTokens (cmdline : String) : List (List Char) :=
  parseArgs ((cmdline.toList.dropLast ++ [' ']).length + 1)
    (skipSpaces (cmdline.toList.dropLast ++ [' ']))

/-- The function `parseline`: build the argv list; the second component is
the returned flag (true for a background job or a blank line).  The command
line is not empty (it was read by `fgets`), and its last character is replaced
by a space.  The loop stores the arguments in `argv[0], argv[1], ...` and then
`argv[argc] = NULL`, with no check against the size MAXARGS of the array that
`eval` passes: the result is `none` when these writes run past its end. -/
def parseline (cmdline : String) : Option (List String × Bool) :=
  let buf := cmdline.toList.dropLast ++ [' ']
  let args := parseArgs (buf.length + 1) (skipSpaces buf)
  if args.length < MAXARGS then
    match args.getLast? with
    | none => some ([], true)
    | some last =>
      if firstChar last = '&' then some ((args.dropLast).map String.mk, true)
      else some (args.map String.mk, false)
  else none

/-- The function `eval`: evaluate the command line the user has typed in.
With `fork` returning 0 this is the child, otherwise the shell.  SIGCHLD is
blocked from before `fork` until after `addjob`; at `sigprocmask(SIG_UNBLOCK)`
the handler runs on the children `os.reaped`. -/
def eval (os : Os) (cmdline : String) (s : Shell) : Outcome :=
  match parseline cmdline with
  | none => .fault s
  | some (argv, bg) =>
    match argv with
    | [] => .ret s
    | argv0 :: _ =>
      match builtin_cmd os argv s with
      | some o => o
      | none =>
        let pid := os.forkRet
        if pid < 0 then unix_error os "fork error" s
        else if pid = 0 then
          if os.execveRet < 0 then .exit 0 (s.print (argv0 ++ ": Command not found\n"))
          else .exec argv s
        else if !bg then
          let s1 := (addjob s pid FG cmdline).2
          match sigchld_handler os.reaped s1 with
          | none => .fault s1
          | some s2 => .waitfg pid s2
        else
          let s1 := (addjob s pid BG cmdline).2
          match sigchld_handler os.reaped s1 with
          | none => .fault s1
          | some s2 =>
            .ret (s2.print ("[" ++ toString (pid2jid s2.jobs pid) ++ "] (" ++ toString pid
              ++ ") " ++ cmdline))

/-- The claimed form `%<jid>` of a `bg`/`fg` argument: a percent sign followed
by a decimal number. -/
def isJobIdForm (arg : String) : Bool :=
  match arg.toList with
  | c :: ds => c == '%' && !ds.isEmpty && ds.all isdigit
  | [] => false

/-- The claimed form `<pid>` of a `bg`/`fg` argument: a decimal number. -/
def isPidForm (arg : String) : Bool :=
  !arg.toList.isEmpty && arg.toList.all isdigit

/-- An operating system whose calls succeed; `fork` returns the child 300. -/
def osOk : Os :=
  { forkRet := 300, execveRet := 0, killRet := 0, strerror := "", reaped := [] }

/-- A sample shell: a background job (pid 100, job id 1) and a stopped job
(pid 101, job id 2). -/
def stoppedShell : Shell :=
  runOps (initShell false) [Op.add 100 BG "sleep 9 &\n", Op.add 101 ST "vi a.c\n"]

/-! ## The SIGINT and SIGTSTP handlers -/

/-- The function `sigint_handler`: send the signal along to the foreground
job. -/
def sigint_handler (os : Os) (sig : Int) (s : Shell) : Outcome :=
  let fg := fgpid s.jobs
  if fg ≠ 0 then
    let s1 := s.kill (-fg) sig
    if os.killRet < 0 then unix_error os "SIGINT ERROR" s1 else .ret s1
  else .ret s

/-- The function `sigtstp_handler`: send the signal along to the foreground
job. -/
def sigtstp_handler (os : Os) (sig : Int) (s : Shell) : Outcome :=
  let fg := fgpid s.jobs
  if fg ≠ 0 then
    let s1 := s.kill (-fg) sig
    if os.killRet < 0 then unix_error os "SIGSTOP ERROR" s1 else .ret s1
  else .ret s

/-! ## The shell as a transition system -/

/-- Where the main flow of the shell is: in the read/eval loop of `main`
between two commands; in `waitfg(pid)` before its lookup `getjobpid`; in the
`while` loop of `waitfg(pid)` with `job` pointing to slot `i`; or in `do_bgfg`
(called with `argv[0] = argv0`) after its `kill` and before the assignment to
`job->state`, with `job` pointing to slot `i`. -/
inductive Mode where
  | prompt
  | waitfgEntry (pid : Int)
  | waitfgLoop (i : Nat) (pid : Int)
  | bgfgSignalled (argv0 : String) (i : Nat)
deriving DecidableEq, Repr

/-- A state of the running shell: the globals and the place of the main flow. -/
structure Config where
  sh : Shell
  mode : Mode
deriving DecidableEq, Repr

/-- The loop condition of `waitfg`: `job->pid == pid && job->state == FG`. -/
def waitfgCond (jobs : List job_t) (i : Nat) (pid : Int) : Bool :=
  (deref jobs i).pid == pid && (deref jobs i).state == FG

/-- The guarantee of `fork`: the pid of the new child is not the pid of a
child that has not been reaped, so no slot of the job list holds it. -/
def freshFork (os : Os) (s : Shell) : Prop := ∀ j ∈ s.jobs, j.pid ≠ os.forkRet

/-- The steps of the shell in which a command runs as a whole.  The main flow
evaluates a command line at the prompt only; `waitfg` is entered, finds its
job or not, and leaves its loop when the loop condition is false; the signal
handlers run between any two steps of the main flow.  No handler runs between
the statements of `do_bgfg` in these steps. -/
inductive StepWhole : Config → Config → Prop where
  | evalRet (os : Os) (cmdline : String) (s s1 : Shell) :
      freshFork os s → eval os cmdline s = .ret s1 → StepWhole ⟨s, .prompt⟩ ⟨s1, .prompt⟩
  | evalWait (os : Os) (cmdline : String) (s s1 : Shell) (pid : Int) :
      freshFork os s → eval os cmdline s = .waitfg pid s1 →
      StepWhole ⟨s, .prompt⟩ ⟨s1, .waitfgEntry pid⟩
  | waitfgNull (s : Shell) (pid : Int) :
      getjobpid s.jobs pid = none → StepWhole ⟨s, .waitfgEntry pid⟩ ⟨s, .prompt⟩
  | waitfgFound (s : Shell) (pid : Int) (i : Nat) :
      getjobpid s.jobs pid = some i →
      StepWhole ⟨s, .waitfgEntry pid⟩ ⟨s, .waitfgLoop i pid⟩
  | waitfgExit (s : Shell) (i : Nat) (pid : Int) :
      waitfgCond s.jobs i pid = false → StepWhole ⟨s, .waitfgLoop i pid⟩ ⟨s, .prompt⟩
  | sigchld (events : List (Int × Status)) (s s1 : Shell) (m : Mode) :
      sigchld_handler events s = some s1 → StepWhole ⟨s, m⟩ ⟨s1, m⟩
  | sigint (os : Os) (sig : Int) (s s1 : Shell) (m : Mode) :
      sigint_handler os sig s = .ret s1 → StepWhole ⟨s, m⟩ ⟨s1, m⟩
  | sigtstp (os : Os) (sig : Int) (s s1 : Shell) (m : Mode) :
      sigtstp_handler os sig s = .ret s1 → StepWhole ⟨s, m⟩ ⟨s1, m⟩

/-- One step of the shell.  Besides the steps of `StepWhole`, the built-in
`bg`/`fg` can be interrupted: `do_bgfg` does not block SIGCHLD, so after the
lookup of the job and the `kill` (first step) the handlers can run before the
assignment to `job->state` is made through the pointer found by the lookup
(second step). -/
inductive Step : Config → Config → Prop where
  | whole (c c1 : Config) : StepWhole c c1 → Step c c1
  | bgfgSignal (os : Os) (cmdline : String) (argv : List String) (bg : Bool) (arg : String)
      (s : Shell) (i : Nat) (pid : Int) :
      parseline cmdline = some (argv, bg) →
      (argv.headD "" = "bg" ∨ argv.headD "" = "fg") →
      argv.tail.head? = some arg →
      resolveTarget (argv.headD "") arg s = .ok (i, pid) →
      0 ≤ os.killRet →
      Step ⟨s, .prompt⟩ ⟨s.kill (-pid) SIGCONT, .bgfgSignalled (argv.headD "") i⟩
  | bgfgRet (argv0 : String) (i : Nat) (s s1 : Shell) :
      do_bgfgUpdate argv0 i s = .ret s1 → Step ⟨s, .bgfgSignalled argv0 i⟩ ⟨s1, .prompt⟩
  | bgfgWait (argv0 : String) (i : Nat) (s s1 : Shell) (pid : Int) :
      do_bgfgUpdate argv0 i s = .waitfg pid s1 →
      Step ⟨s, .bgfgSignalled argv0 i⟩ ⟨s1, .waitfgEntry pid⟩

/-- The states the shell can reach from the empty job table when every
command runs as a whole. -/
def ReachableWhole (c : Config) : Prop :=
  ∃ verbose, Relation.ReflTransGen StepWhole ⟨initShell verbose, .prompt⟩ c

/-- The states the shell can reach from the empty job table. -/
def Reachable (c : Config) : Prop :=
  ∃ verbose, Relation.ReflTransGen Step ⟨initShell verbose, .prompt⟩ c

/-- The number of slots whose state is FG. -/
def fgCount (jobs : List job_t) : Nat := jobs.countP (fun j => j.state == FG)

/-! ## The invariant of the transition system -/

/-- A slot `x` that comes from the slot `y` by clearing it or by changing
only its state or command line. -/
def Kept (y x : job_t) : Prop :=
  (x.pid = 0 ∧ x.jid = 0) ∨ (x.pid = y.pid ∧ x.jid = y.jid)

/-- A slot `x` that is the slot `y` unchanged, or comes from it without
becoming a foreground job. -/
def Calm (y x : job_t) : Prop := x = y ∨ (x.state ≠ FG ∧ Kept y x)

/-- Slot by slot, the new table comes from the old one by `Kept`. -/
def KeptTable (old new : List job_t) : Prop :=
  new.length = old.length
  ∧ ∀ (k : Nat) (x y : job_t), old[k]? = some y → new[k]? = some x → Kept y x

/-- Slot by slot, the new table comes from the old one by `Calm`. -/
def CalmTable (old new : List job_t) : Prop :=
  new.length = old.length
  ∧ ∀ (k : Nat) (x y : job_t), old[k]? = some y → new[k]? = some x → Calm y x

/-- The part of the invariant that does not depend on the main flow: pids are
not negative, a free slot has job id 0, and no pid is held by two slots. -/
def TableOk (jobs : List job_t) : Prop :=
  (∀ x ∈ jobs, 0 ≤ x.pid ∧ (x.pid = 0 → x.jid = 0))
  ∧ (∀ (i j : Nat) (x y : job_t),
      jobs[i]? = some x → jobs[j]? = some y → x.pid ≠ 0 → x.pid = y.pid → i = j)

/-- The part of the invariant that depends on the main flow: at the prompt no
slot is FG; once `waitfg(pid)` is called, a slot that is FG is the slot its
lookup finds; inside the loop on slot `i`, a slot that is FG is slot `i` and
holds `pid`.  The place inside `do_bgfg` is not reached when every command
runs as a whole. -/
def ModeOk (jobs : List job_t) : Mode → Prop
  | .prompt => ∀ x ∈ jobs, x.state ≠ FG
  | .waitfgEntry pid =>
    ∀ (k : Nat) (x : job_t), jobs[k]? = some x → x.state = FG → getjobpid jobs pid = some k
  | .waitfgLoop i pid =>
    ∀ (k : Nat) (x : job_t), jobs[k]? = some x → x.state = FG → k = i ∧ x.pid = pid
  | .bgfgSignalled _ _ => False

/-- The invariant of the states reached when every command runs as a whole. -/
def Inv (c : Config) : Prop := TableOk c.sh.jobs ∧ ModeOk c.sh.jobs c.mode

/-! ## Further notions used to state properties -/

/-- The shell a function leaves behind, however it ends. -/
def Outcome.sh : Outcome → Shell
  | .ret s => s
  | .waitfg _ s => s
  | .exit _ s => s
  | .exec _ s => s
  | .fault s => s

/-- The word `listjobs` prints for a job state, with the blank after it. -/
def stateWord (state : Int) : String :=
  if state = BG then "Running "
  else if state = FG then "Foreground "
  else "Stopped "

/-- The line of the jobs listing for one job: `[jid] (pid) <State> cmdline`. -/
def jobLine (j : job_t) : String :=
  "[" ++ toString j.jid ++ "] (" ++ toString j.pid ++ ") " ++ stateWord j.state ++ j.cmdline

/-- The concatenation of a list of texts, first to last. -/
def concatLines : List String → String
  | [] => ""
  | x :: xs => x ++ concatLines xs

/-- The line `addjob` prints when the shell runs with `-v`. -/
def verboseLine (verbose : Bool) (jid pid : Int) (cmdline : String) : String :=
  if verbose then
    "Added job [" ++ toString jid ++ "] " ++ toString pid ++ " " ++ cmdline ++ "\n"
  else ""

/-- An operating system in the child process (`fork` returned 0) whose
`execve` fails. -/
def osChildFail : Os :=
  { forkRet := 0, execveRet := -1, killRet := 0, strerror := "", reaped := [] }

/-! ## Sequences of updates of the job table -/

/-- An update of the job table: a call of `addjob` or `deletejob`, the
built-in `bg`/`fg` (`do_bgfg`), or one child reaped by `sigchld_handler`. -/
inductive TableOp where
  | addjob (pid state : Int) (cmdline : String)
  | deletejob (pid : Int)
  | bgfg (os : Os) (argv : List String)
  | reap (pid : Int) (status : Status)
deriving DecidableEq, Repr

/-- Perform one update; `none` when the shell does not survive it (`do_bgfg`
ends in `exit`, or the handler dereferences NULL). -/
def applyTableOp (s : Shell) : TableOp → Option Shell
  | .addjob p st c => some (addjob s p st c).2
  | .deletejob p => some (deletejob s p).2
  | .bgfg os argv =>
    match do_bgfg os argv s with
    | .ret s1 => some s1
    | .waitfg _ s1 => some s1
    | _ => none
  | .reap p status => sigchld_handler [(p, status)] s

/-- Perform a sequence of updates, first to last. -/
def runTableOps (s : Shell) : List TableOp → Option Shell
  | [] => some s
  | op :: ops =>
    match applyTableOp s op with
    | none => none
    | some s1 => runTableOps s1 ops

/-- The use of an update the invariant of the job table relies on: `addjob`
is given one of the states FG, BG, ST, and the `int` arithmetic is defined. -/
def TableOp.wellUsed (s : Shell) : TableOp → Bool
  | .addjob _ st _ => decide ((st = FG ∨ st = BG ∨ st = ST) ∧ s.nextjid < INT_MAX)
  | .deletejob _ => decide (maxjid s.jobs < INT_MAX)
  | .bgfg _ _ => true
  | .reap _ _ => decide (maxjid s.jobs < INT_MAX)

/-- Every update of the sequence is well used in the state it is made in. -/
def wellUsedRun (s : Shell) : List TableOp → Bool
  | [] => true
  | op :: ops =>
    op.wellUsed s &&
      (match applyTableOp s op with
       | none => true
       | some s1 => wellUsedRun s1 ops)

/-- The slot the target of `bg`/`fg` resolves to, if it resolves. -/
def bgfgTarget (argv : List String) (s : Shell) : Option Nat :=
  match argv.tail.head? with
  | none => none
  | some arg =>
    match resolveTarget (argv.headD "") arg s with
    | .ok (i, _) => some i
    | .error _ => none

/-- An update that does not resume, stop or reap the job with pid `p` in
slot `i`: `addjob`, `deletejob` and reaper events are for other pids, and the
target of `bg`/`fg` does not resolve to slot `i`. -/
def TableOp.avoids (p : Int) (i : Nat) (s : Shell) : TableOp → Bool
  | .addjob q _ _ => decide (q ≠ p)
  | .deletejob q => decide (q ≠ p)
  | .bgfg _ argv => decide (bgfgTarget argv s ≠ some i)
  | .reap q _ => decide (q ≠ p)

/-- Every update of the sequence avoids the job with pid `p` in slot `i`. -/
def avoidsRun (p : Int) (i : Nat) (s : Shell) : List TableOp → Bool
  | [] => true
  | op :: ops =>
    op.avoids p i s &&
      (match applyTableOp s op with
       | none => true
       | some s1 => avoidsRun p i s1 ops)

/-- The invariant of a slot: it is free and cleared (pid 0, job id 0, state
UNDEF), or live with a job id of at least 1 and a state other than UNDEF. -/
def SlotOk (j : job_t) : Prop :=
  (j.pid = 0 ∧ j.jid = 0 ∧ j.state = UNDEF) ∨ (j.pid ≠ 0 ∧ 1 ≤ j.jid ∧ j.state ≠ UNDEF)

/-- The text `listjobs` prints for the slots `l`, the first of which is slot
number `start`. -/
def listingText (start : Nat) (l : List job_t) : String := listjobsFrom "" start l

/-- A sample session: a foreground job is launched, stopped by ctrl-z and
resumed by `bg %1`; a background job is launched and exits. -/
def sampleOps : List TableOp :=
  [TableOp.addjob 100 FG "vi a.c\n", TableOp.reap 100 (Status.stopped 20),
   TableOp.bgfg osOk ["bg", "%1"], TableOp.addjob 101 BG "sleep 9 &\n",
   TableOp.reap 101 (Status.exited 0)]

/-- The shell after the sample session. -/
def sampleShell : Shell := (runTableOps (initShell false) sampleOps).getD (initShell false)

/-- Updates made while the background job pid 300 (slot 2 of the two-job
table) runs: the foreground job is stopped and resumed, another job is
launched and killed, and `bg` is typed with a job id nobody has. -/
def otherOps : List TableOp :=
  [TableOp.reap 100 (Status.stopped 20), TableOp.bgfg osOk ["bg", "%1"],
   TableOp.addjob 301 BG "ls &\n", TableOp.reap 301 (Status.signaled 9),
   TableOp.bgfg osOk ["bg", "%7"], TableOp.deletejob 101]

/-! ## A run in which a child is reaped inside `do_bgfg` -/

/-- An operating system in which `fork` returns `pid` to the parent, `execve`
and `kill` succeed, and no child is reaped while `eval` unblocks SIGCHLD. -/
def osFork (pid : Int) : Os :=
  { forkRet := pid, execveRet := 0, killRet := 0, strerror := "", reaped := [] }

/-- The shell after the background launches `sleep 5 &` (child pid 100) and
`sleep 9 &` (child pid 101) from the empty table. -/
def raceLaunched : Shell :=
  (eval (osFork 101) "sleep 9 &\n" (eval (osFork 100) "sleep 5 &\n" (initShell false)).sh).sh

/-- The command `fg %1` after the lookup of job 1 (slot 0, pid 100) and the
`kill(-100, SIGCONT)` of `do_bgfg`. -/
def raceSignalled : Shell := raceLaunched.kill (-100) SIGCONT

/-- Child 100 exits and `sigchld_handler` reaps it before `do_bgfg` assigns
to `job->state`. -/
def raceReaped : Shell :=
  (sigchld_handler [(100, .exited 0)] raceSignalled).getD raceSignalled

/-- The assignment `job->state = FG` of `do_bgfg` through the pointer to slot
0, followed by `waitfg(job->pid)`. -/
def raceUpdated : Shell := (do_bgfgUpdate "fg" 0 raceReaped).sh

/-- After `waitfg` has returned, the command `fg %2`. -/
def raceShell : Shell := (eval (osFork 102) "fg %2\n" raceUpdated).sh

/-- An operating system in which the child (pid 300) has exited by the time
`eval` unblocks SIGCHLD: the pending signal runs `sigchld_handler`, whose
`waitpid` returns 300 with an exit status. -/
def osEarlyExit : Os :=
  { forkRet := 300, execveRet := 0, killRet := 0, strerror := "", reaped := [(300, .exited 0)] }

/-- A command line of 129 tokens: 128 times `a`, then `&`. -/
def longLine : String := String.join (List.replicate 128 "a ") ++ "&\n"

/-! # Theorems -/


/-! ## Facts about the search loop -/

theorem findSlot_eq_none {p : job_t → Bool} {l : List job_t} :
    findSlot p l = none ↔ ∀ j ∈ l, p j = false := by
  induction l with
  | nil => simp [findSlot]
  | cons a l ih =>
    by_cases ha : p a = true
    · simp [findSlot, ha]
    · simp [findSlot, ha, ih]

theorem findSlot_eq_some {p : job_t → Bool} {l : List job_t} {i : Nat}
    (h : findSlot p l = some i) :
    ∃ j, l[i]? = some j ∧ p j = true ∧ ∀ k x, k < i → l[k]? = some x → p x = false := by
  induction l generalizing i with
  | nil => simp [findSlot] at h
  | cons a l ih =>
    by_cases ha : p a = true
    · simp [findSlot, ha] at h
      subst h
      exact ⟨a, by simp, ha, by intro k x hk; omega⟩
    · simp [findSlot, ha] at h
      obtain ⟨i', hi', rfl⟩ := h
      obtain ⟨j, hj, hpj, hlt⟩ := ih hi'
      refine ⟨j, by simpa using hj, hpj, ?_⟩
      intro k x hk hx
      cases k with
      | zero => simp at hx; subst hx; simpa using ha
      | succ k => exact hlt k x (by omega) (by simpa using hx)

theorem findSlot_lt_length {p : job_t → Bool} {l : List job_t} {i : Nat}
    (h : findSlot p l = some i) : i < l.length := by
  obtain ⟨j, hj, _⟩ := findSlot_eq_some h
  exact (List.getElem?_eq_some.mp hj).1

theorem findSlot_of_first {p : job_t → Bool} {l : List job_t} {i : Nat} {j : job_t}
    (hj : l[i]? = some j) (hp : p j = true)
    (hfirst : ∀ k x, k < i → l[k]? = some x → p x = false) :
    findSlot p l = some i := by
  induction l generalizing i with
  | nil => simp at hj
  | cons a l ih =>
    cases i with
    | zero =>
      simp at hj; subst hj
      simp [findSlot, hp]
    | succ i =>
      have ha : p a = false := hfirst 0 a (by omega) (by simp)
      have := ih (i := i) (by simpa using hj)
        (fun k x hk hx => hfirst (k + 1) x (by omega) (by simpa using hx))
      simp [findSlot, ha, this]

/-! ## Facts about `maxjid`, `addjob` and `deletejob` -/

theorem maxjid_foldl_spec (l : List job_t) (m : Int) :
    m ≤ l.foldl (fun max j => if j.jid > max then j.jid else max) m
    ∧ (∀ j ∈ l, j.jid ≤ l.foldl (fun max j => if j.jid > max then j.jid else max) m)
    ∧ (l.foldl (fun max j => if j.jid > max then j.jid else max) m = m
        ∨ ∃ j ∈ l, j.jid = l.foldl (fun max j => if j.jid > max then j.jid else max) m) := by
  induction l generalizing m with
  | nil => simp
  | cons a l ih =>
    simp only [List.foldl_cons]
    by_cases hgt : a.jid > m
    · simp only [hgt, if_true]
      obtain ⟨h1, h2, h3⟩ := ih a.jid
      refine ⟨by omega, ?_, ?_⟩
      · intro j hj
        rcases List.mem_cons.mp hj with rfl | hj
        · exact h1
        · exact h2 j hj
      · right
        rcases h3 with h3 | ⟨j, hj, hje⟩
        · exact ⟨a, List.mem_cons_self _ _, h3.symm⟩
        · exact ⟨j, List.mem_cons_of_mem _ hj, hje⟩
    · simp only [hgt, if_false]
      obtain ⟨h1, h2, h3⟩ := ih m
      refine ⟨h1, ?_, ?_⟩
      · intro j hj
        rcases List.mem_cons.mp hj with rfl | hj
        · omega
        · exact h2 j hj
      · rcases h3 with h3 | ⟨j, hj, hje⟩
        · exact Or.inl h3
        · exact Or.inr ⟨j, List.mem_cons_of_mem _ hj, hje⟩

theorem maxjid_nonneg (l : List job_t) : 0 ≤ maxjid l :=
  (maxjid_foldl_spec l 0).1

theorem le_maxjid {l : List job_t} {j : job_t} (h : j ∈ l) : j.jid ≤ maxjid l :=
  (maxjid_foldl_spec l 0).2.1 j h

theorem maxjid_attained (l : List job_t) : maxjid l = 0 ∨ ∃ j ∈ l, j.jid = maxjid l :=
  (maxjid_foldl_spec l 0).2.2

theorem int32_of_range {x : Int} (h1 : -2147483648 ≤ x) (h2 : x ≤ 2147483647) : int32 x = x := by
  unfold int32
  omega

theorem mem_modify_clearjob {l : List job_t} {i : Nat} {j : job_t}
    (h : j ∈ l.modify clearjob i) : j ∈ l ∨ j = clearjob j := by
  obtain ⟨k, hk, rfl⟩ := List.getElem_of_mem h
  rw [List.getElem_modify]
  split
  · right; rfl
  · left; exact List.getElem_mem _

theorem addjob_ret_one {s : Shell} {p st : Int} {c : String}
    (h : (addjob s p st c).1 = 1) :
    1 ≤ p ∧ ∃ i, findSlot (fun j => j.pid == 0) s.jobs = some i ∧
      (addjob s p st c).2.jobs = s.jobs.set i ⟨p, s.nextjid, st, c⟩ := by
  unfold addjob at h ⊢
  by_cases hp : p < 1
  · simp [hp] at h
  · simp only [hp, if_false] at h ⊢
    cases hf : findSlot (fun j => j.pid == 0) s.jobs with
    | none => simp [hf] at h
    | some i =>
      refine ⟨by omega, i, rfl, ?_⟩
      simp only []
      split <;> rfl

theorem deletejob_ret_one {s : Shell} {p : Int} (h : (deletejob s p).1 = 1) :
    1 ≤ p ∧ ∃ i, findSlot (fun j => j.pid == p) s.jobs = some i ∧
      (deletejob s p).2 = { s with jobs := s.jobs.modify clearjob i,
                                   nextjid := int32 (maxjid (s.jobs.modify clearjob i) + 1) } := by
  unfold deletejob at h ⊢
  by_cases hp : p < 1
  · simp [hp] at h
  · simp only [hp, if_false] at h ⊢
    cases hf : findSlot (fun j => j.pid == p) s.jobs with
    | none => simp [hf] at h
    | some i => exact ⟨by omega, i, rfl, rfl⟩

theorem wellFormed_modify_clearjob {l : List job_t} (i : Nat) (h : WellFormed l) :
    WellFormed (l.modify clearjob i) := by
  intro j hj
  rcases mem_modify_clearjob hj with hj | hj
  · exact h j hj
  · rw [hj]
    simp [WellFormedJob, clearjob, INT_MAX]

/-! ## Job ids -/

set_option maxRecDepth 100000 in
/-- C1 (code at the failing input): fifteen background jobs are added (pids
100..114, job ids 1..15), the job with pid 101 is deleted, and two more jobs
are added (pids 200 and 201), every `addjob` with a fresh `pid >= 1`.  The
first of the two gets job id 16 and wraps `nextjid` to 1, so the second gets
job id 1 while the job with pid 100 still holds job id 1: the job ids of the
live slots are not pairwise distinct. -/
theorem addjob_reuses_live_jid :
    admissibleRun (initShell false) collisionOps = true
    ∧ (runOps (initShell false) collisionOps).jobs.map (fun j => (j.pid, j.jid))
        = [(100, 1), (200, 16), (102, 3), (103, 4), (104, 5), (105, 6), (106, 7), (107, 8),
           (108, 9), (109, 10), (110, 11), (111, 12), (112, 13), (113, 14), (114, 15), (201, 1)]
    ∧ ¬ (liveJids (runOps (initShell false) collisionOps).jobs).Nodup := by
  decide

/-- C3: on a well-formed job table, when `deletejob(pid)` returns 1 the new
`nextjid` is `maxjid` of the resulting table plus 1, where `maxjid` is the
largest job id among the live jobs (every live job id is at most `maxjid`, and
either a live job has it or no job is left and `nextjid` is 1); the next
successful `addjob` fills a free slot with the job id `maxjid + 1`. -/
theorem deletejob_rebases_nextjid (s : Shell) (pid : Int) (hwf : WellFormed s.jobs)
    (hret : (deletejob s pid).1 = 1) :
    (deletejob s pid).2.nextjid = maxjid (deletejob s pid).2.jobs + 1
    ∧ (∀ j ∈ (deletejob s pid).2.jobs, j.pid ≠ 0 → j.jid ≤ maxjid (deletejob s pid).2.jobs)
    ∧ ((∃ j ∈ (deletejob s pid).2.jobs, j.pid ≠ 0 ∧ j.jid = maxjid (deletejob s pid).2.jobs)
        ∨ ((∀ j ∈ (deletejob s pid).2.jobs, j.pid = 0) ∧ (deletejob s pid).2.nextjid = 1))
    ∧ (∀ p st c, (addjob (deletejob s pid).2 p st c).1 = 1 →
        ∃ i old, (deletejob s pid).2.jobs[i]? = some old ∧ old.pid = 0 ∧
          (addjob (deletejob s pid).2 p st c).2.jobs
            = (deletejob s pid).2.jobs.set i
                ⟨p, maxjid (deletejob s pid).2.jobs + 1, st, c⟩) := by
  obtain ⟨_, i, _, heq⟩ := deletejob_ret_one hret
  have hwf1 : WellFormed (s.jobs.modify clearjob i) := wellFormed_modify_clearjob i hwf
  have hjobs : (deletejob s pid).2.jobs = s.jobs.modify clearjob i := by rw [heq]
  have hmax0 := maxjid_nonneg (s.jobs.modify clearjob i)
  have hmaxlt : maxjid (s.jobs.modify clearjob i) < INT_MAX := by
    rcases maxjid_attained (s.jobs.modify clearjob i) with h0 | ⟨j, hj, hje⟩
    · rw [h0]; decide
    · rw [← hje]; exact (hwf1 j hj).2.2
  have hnext : (deletejob s pid).2.nextjid = maxjid (s.jobs.modify clearjob i) + 1 := by
    rw [heq]
    simp only []
    apply int32_of_range <;> (unfold INT_MAX at hmaxlt; omega)
  rw [hjobs]
  refine ⟨hnext, fun j hj _ => le_maxjid hj, ?_, ?_⟩
  · rcases maxjid_attained (s.jobs.modify clearjob i) with h0 | ⟨j, hj, hje⟩
    · right
      refine ⟨?_, by rw [hnext, h0]; rfl⟩
      intro j hj
      by_contra hne
      have h1 := (hwf1 j hj).2.1 hne
      have h2 := le_maxjid hj
      omega
    · by_cases hz : maxjid (s.jobs.modify clearjob i) = 0
      · right
        refine ⟨?_, by rw [hnext, hz]; rfl⟩
        intro j hj
        by_contra hne
        have h1 := (hwf1 j hj).2.1 hne
        have h2 := le_maxjid hj
        omega
      · left
        refine ⟨j, hj, ?_, hje⟩
        intro hp
        have := (hwf1 j hj).1 hp
        omega
  · intro p st c hadd
    obtain ⟨_, k, hk, hset⟩ := addjob_ret_one hadd
    obtain ⟨old, hold, hpold, _⟩ := findSlot_eq_some hk
    rw [hjobs] at hold
    refine ⟨k, old, hold, by simpa using hpold, ?_⟩
    rw [hset, hnext, hjobs]

/-- C4: `addjob` returns 1 exactly when `pid >= 1` and some slot is free
(`pid = 0`); on a table whose MAXJOBS slots are all live it returns 0; and
whenever it returns 0 the job list and `nextjid` are unchanged. -/
theorem addjob_ret_spec (s : Shell) (p st : Int) (c : String) :
    ((addjob s p st c).1 = 1 ↔ (1 ≤ p ∧ ∃ j ∈ s.jobs, j.pid = 0))
    ∧ (s.jobs.length = MAXJOBS → (∀ j ∈ s.jobs, j.pid ≠ 0) → (addjob s p st c).1 = 0)
    ∧ ((addjob s p st c).1 = 0 →
        (addjob s p st c).2.jobs = s.jobs ∧ (addjob s p st c).2.nextjid = s.nextjid) := by
  have key : (addjob s p st c).1 = 1 ∨
      ((addjob s p st c).1 = 0 ∧ (p < 1 ∨ ∀ j ∈ s.jobs, j.pid ≠ 0) ∧
        (addjob s p st c).2.jobs = s.jobs ∧ (addjob s p st c).2.nextjid = s.nextjid) := by
    unfold addjob
    by_cases hp : p < 1
    · simp [hp]
    · simp only [hp, if_false]
      cases hf : findSlot (fun j => j.pid == 0) s.jobs with
      | none =>
        right
        have := findSlot_eq_none.mp hf
        simp only [beq_eq_false_iff_ne, ne_eq] at this
        exact ⟨rfl, Or.inr this, rfl, rfl⟩
      | some i => left; rfl
  refine ⟨⟨?_, ?_⟩, ?_, ?_⟩
  · intro h
    obtain ⟨hp, i, hi, _⟩ := addjob_ret_one h
    obtain ⟨j, hj, hpj, _⟩ := findSlot_eq_some hi
    exact ⟨hp, j, List.getElem?_mem hj, by simpa using hpj⟩
  · rintro ⟨hp, j, hj, hj0⟩
    rcases key with h | ⟨_, h | h, _⟩
    · exact h
    · omega
    · exact absurd hj0 (h j hj)
  · intro _ hall
    rcases key with h | ⟨h, _⟩
    · obtain ⟨_, i, hi, _⟩ := addjob_ret_one h
      obtain ⟨j, hj, hpj, _⟩ := findSlot_eq_some hi
      exact absurd (by simpa using hpj) (hall j (List.getElem?_mem hj))
    · exact h
  · intro h0
    rcases key with h | ⟨_, _, h⟩
    · omega
    · exact h

/-- C3 witness: deleting pid 100 from the two-job table. -/
theorem deletejob_rebases_nextjid_witness :
    WellFormed twoJobs.jobs ∧ (deletejob twoJobs 100).1 = 1
    ∧ (deletejob twoJobs 100).2.nextjid = maxjid (deletejob twoJobs 100).2.jobs + 1 :=
  ⟨by decide, by decide, (deletejob_rebases_nextjid twoJobs 100 (by decide) (by decide)).1⟩

set_option maxRecDepth 100000 in
/-- C4 witness: on the full table `addjob` returns 0. -/
theorem addjob_ret_spec_witness :
    fullShell.jobs.length = MAXJOBS ∧ (∀ j ∈ fullShell.jobs, j.pid ≠ 0)
    ∧ (addjob fullShell 200 BG "ls &\n").1 = 0 :=
  ⟨by decide, by decide,
    (addjob_ret_spec fullShell 200 BG "ls &\n").2.1 (by decide) (by decide)⟩

/-! ## Facts about slot pointers -/

theorem deref_eq {l : List job_t} {i : Nat} {j : job_t} (h : l[i]? = some j) :
    deref l i = j := by
  simp [deref, List.getD, h]

theorem modify_eq_set {l : List job_t} {i : Nat} {j : job_t} (f : job_t → job_t)
    (h : l[i]? = some j) : l.modify f i = l.set i (f j) := by
  induction l generalizing i with
  | nil => simp at h
  | cons a l ih =>
    cases i with
    | zero => simp at h; subst h; simp
    | succ i => simp at h; simp [ih h]

theorem findSlot_modify {p : job_t → Bool} {f : job_t → job_t} (hf : ∀ j, p (f j) = p j)
    (l : List job_t) (i : Nat) : findSlot p (l.modify f i) = findSlot p l := by
  induction l generalizing i with
  | nil => simp
  | cons a l ih =>
    cases i with
    | zero => simp [findSlot, hf]
    | succ i =>
      rw [List.modify_succ_cons]
      simp only [findSlot, ih]

theorem getjobpid_setState (l : List job_t) (i : Nat) (st p : Int) :
    getjobpid (l.modify (fun j => { j with state := st }) i) p = getjobpid l p := by
  unfold getjobpid
  split
  · rfl
  · exact findSlot_modify (p := fun j => j.pid == p)
      (f := fun j => { j with state := st }) (fun _ => rfl) l i

theorem getjobjid_setState (l : List job_t) (i : Nat) (st p : Int) :
    getjobjid (l.modify (fun j => { j with state := st }) i) p = getjobjid l p := by
  unfold getjobjid
  split
  · rfl
  · exact findSlot_modify (p := fun j => j.jid == p)
      (f := fun j => { j with state := st }) (fun _ => rfl) l i

theorem getjobpid_some {l : List job_t} {p : Int} {i : Nat} (h : getjobpid l p = some i) :
    1 ≤ p ∧ ∃ j, l[i]? = some j ∧ j.pid = p ∧
      ∀ k x, k < i → l[k]? = some x → x.pid ≠ p := by
  unfold getjobpid at h
  by_cases hp : p < 1
  · simp [hp] at h
  · simp only [hp, if_false] at h
    obtain ⟨j, hj, hpj, hfirst⟩ := findSlot_eq_some h
    refine ⟨by omega, j, hj, by simpa using hpj, ?_⟩
    intro k x hk hx
    simpa using hfirst k x hk hx

theorem getjobjid_some {l : List job_t} {p : Int} {i : Nat} (h : getjobjid l p = some i) :
    1 ≤ p ∧ ∃ j, l[i]? = some j ∧ j.jid = p ∧
      ∀ k x, k < i → l[k]? = some x → x.jid ≠ p := by
  unfold getjobjid at h
  by_cases hp : p < 1
  · simp [hp] at h
  · simp only [hp, if_false] at h
    obtain ⟨j, hj, hpj, hfirst⟩ := findSlot_eq_some h
    refine ⟨by omega, j, hj, by simpa using hpj, ?_⟩
    intro k x hk hx
    simpa using hfirst k x hk hx

theorem getjobpid_of_first {l : List job_t} {p : Int} {i : Nat} {j : job_t}
    (hp : 1 ≤ p) (hj : l[i]? = some j) (hjp : j.pid = p)
    (hfirst : ∀ k x, k < i → l[k]? = some x → x.pid ≠ p) : getjobpid l p = some i := by
  unfold getjobpid
  have : ¬ p < 1 := by omega
  simp only [this, if_false]
  exact findSlot_of_first hj (by simpa using hjp)
    (fun k x hk hx => by simpa using hfirst k x hk hx)

theorem pid2jid_of_first {l : List job_t} {p : Int} {i : Nat} {j : job_t}
    (hp : 1 ≤ p) (hj : l[i]? = some j) (hjp : j.pid = p)
    (hfirst : ∀ k x, k < i → l[k]? = some x → x.pid ≠ p) : pid2jid l p = j.jid := by
  unfold pid2jid
  have : ¬ p < 1 := by omega
  simp only [this, if_false]
  have hfind : l.find? (fun x => x.pid == p) = some j := by
    clear this
    induction l generalizing i with
    | nil => simp at hj
    | cons a l ih =>
      cases i with
      | zero => simp at hj; subst hj; simp [hjp]
      | succ i =>
        have ha : a.pid ≠ p := hfirst 0 a (by omega) (by simp)
        have := ih (i := i) (by simpa using hj)
          (fun k x hk hx => hfirst (k + 1) x (by omega) (by simpa using hx))
        have hb : (a.pid == p) = false := by simpa using ha
        simp only [List.find?, hb, this]
  rw [hfind]

theorem getjobpid_absent {l : List job_t} {p : Int} (h : ∀ j ∈ l, j.pid ≠ 0 → j.pid ≠ p) :
    getjobpid l p = none := by
  unfold getjobpid
  split
  · rfl
  · rename_i hp
    rw [findSlot_eq_none]
    intro j hj
    have : j.pid ≠ p := by
      by_cases h0 : j.pid = 0
      · omega
      · exact h j hj h0
    simpa using this

/-! ## `atoi` reads back a decimal numeral -/

theorem digitChar_isdigit {k : Nat} (hk : k < 10) :
    isdigit (Nat.digitChar k) = true ∧ (((Nat.digitChar k).toNat : Int) - 48 = k) := by
  interval_cases k <;> decide

theorem atoiDigits_toDigitsCore (fuel : Nat) :
    ∀ (n : Nat) (ds : List Char), n < fuel →
      ∃ (g : Int → Int) (c : Char) (rest : List Char),
        Nat.toDigitsCore 10 fuel n ds = c :: rest ∧ isdigit c = true
        ∧ (∀ acc, atoiDigits acc (Nat.toDigitsCore 10 fuel n ds) = atoiDigits (g acc) ds)
        ∧ g 0 = n := by
  induction fuel with
  | zero => intro n ds h; omega
  | succ fuel ih =>
    intro n ds hn
    have hd := digitChar_isdigit (Nat.mod_lt n (by decide : 10 > 0))
    by_cases h0 : n / 10 = 0
    · refine ⟨fun acc => acc * 10 + ((n % 10 : Nat) : Int), Nat.digitChar (n % 10), ds, ?_, hd.1, ?_, ?_⟩
      · simp [Nat.toDigitsCore, h0]
      · intro acc
        simp only [Nat.toDigitsCore, h0, if_true, atoiDigits, hd.1, hd.2]
      · simp only [zero_mul, zero_add]
        have : n % 10 = n := by omega
        rw [this]
    · obtain ⟨g, c, rest, h1, h2, h3, h4⟩ := ih (n / 10) (Nat.digitChar (n % 10) :: ds) (by omega)
      refine ⟨fun acc => g acc * 10 + ((n % 10 : Nat) : Int), c, rest, ?_, h2, ?_, ?_⟩
      · simp only [Nat.toDigitsCore, h0, if_false]
        exact h1
      · intro acc
        simp only [Nat.toDigitsCore, h0, if_false]
        rw [h3 acc]
        simp only [atoiDigits, hd.1, if_true, hd.2]
      · simp only [h4]
        omega

theorem atoi_repr (n : Nat) (hn : (n : Int) ≤ INT_MAX) : atoi (toString n).toList = n := by
  obtain ⟨g, c, rest, h1, h2, h3, h4⟩ := atoiDigits_toDigitsCore (n + 1) n [] (by omega)
  have hlist : (toString n).toList = c :: rest := by
    show (Nat.repr n).toList = c :: rest
    simp only [Nat.repr, Nat.toDigits, List.asString, h1]
    rfl
  have hval : atoiDigits 0 (c :: rest) = n := by
    rw [← h1, h3 0, h4]
    rfl
  have hsp : isspace c = false := by
    simp only [isdigit, decide_eq_true_eq] at h2
    simp only [isspace, decide_eq_false_iff_not]
    omega
  have hminus : c ≠ '-' := by
    intro h; rw [h] at h2; exact absurd h2 (by decide)
  have hplus : c ≠ '+' := by
    intro h; rw [h] at h2; exact absurd h2 (by decide)
  have hclamp : strtolClamp (n : Int) = n := by
    unfold strtolClamp LONG_MAX LONG_MIN
    unfold INT_MAX at hn
    split
    · omega
    · split
      · omega
      · rfl
  rw [hlist]
  simp only [atoi, List.dropWhile, hsp, hminus, hplus, if_false, hval, hclamp]
  apply int32_of_range
  · omega
  · unfold INT_MAX at hn; omega

/-- The model of `atoi` on numerals outside the range of `int` and of `long`:
the low 32 bits of a `long`, and the saturated values -1 and 0. -/
theorem atoi_out_of_range :
    atoi "4294967397".toList = 101
    ∧ atoi "18446744073709551717".toList = -1
    ∧ atoi "-18446744073709551717".toList = 0
    ∧ atoi "  -12x".toList = -12 := by
  decide

theorem percent_toList (t : String) : ("%" ++ t).toList = '%' :: t.toList := by
  show ("%" ++ t).data = '%' :: t.data
  rw [String.data_append]
  rfl

theorem toString_natCast (n : Nat) : toString ((n : Nat) : Int) = toString n := rfl

/-! ## The built-in commands `bg` and `fg` -/

theorem resolveTarget_ok {s : Shell} {arg : String} {i : Nat} (argv0 : String)
    (hres : (firstChar arg.toList = '%' ∧ getjobjid s.jobs (atoi arg.toList.tail) = some i)
      ∨ (isdigit (firstChar arg.toList) = true ∧ getjobpid s.jobs (atoi arg.toList) = some i)) :
    resolveTarget argv0 arg s = .ok (i, (deref s.jobs i).pid) := by
  unfold resolveTarget
  rcases hres with ⟨h1, h2⟩ | ⟨h1, h2⟩
  · simp only [h1, if_true, h2]
  · have hne : firstChar arg.toList ≠ '%' := by
      intro h
      rw [h] at h1
      exact absurd h1 (by decide)
    simp only [hne, if_false, h1, if_true, h2]
    obtain ⟨_, j, hj, hjp, _⟩ := getjobpid_some h2
    rw [deref_eq hj, hjp]

theorem do_bgfg_bg_core {os : Os} {s : Shell} {arg : String} {i : Nat} (rest : List String)
    (hkill : 0 ≤ os.killRet)
    (hres : (firstChar arg.toList = '%' ∧ getjobjid s.jobs (atoi arg.toList.tail) = some i)
      ∨ (isdigit (firstChar arg.toList) = true ∧ getjobpid s.jobs (atoi arg.toList) = some i)) :
    do_bgfg os ("bg" :: arg :: rest) s
      = .ret { s with
          jobs := s.jobs.modify (fun j => { j with state := BG }) i
          kills := s.kills ++ [(-(deref s.jobs i).pid, SIGCONT)]
          out := s.out ++ ("[" ++ toString (deref s.jobs i).jid ++ "] ("
            ++ toString (deref s.jobs i).pid ++ ") " ++ (deref s.jobs i).cmdline) } := by
  have hk : ¬ os.killRet < 0 := by omega
  have hd : deref (s.jobs.modify (fun j => { j with state := BG }) i) i
      = { deref s.jobs i with state := BG } ∨ s.jobs[i]? = none := by
    cases hj : s.jobs[i]? with
    | none => right; rfl
    | some j =>
      left
      rw [deref_eq hj, modify_eq_set _ hj]
      apply deref_eq
      have hlt := (List.getElem?_eq_some.mp hj).1
      simp [hlt]
  have hsome : ∃ j, s.jobs[i]? = some j := by
    rcases hres with ⟨_, h2⟩ | ⟨_, h2⟩
    · obtain ⟨_, j, hj, _⟩ := getjobjid_some h2; exact ⟨j, hj⟩
    · obtain ⟨_, j, hj, _⟩ := getjobpid_some h2; exact ⟨j, hj⟩
  have hd1 : deref (s.jobs.modify (fun j => { j with state := BG }) i) i
      = { deref s.jobs i with state := BG } := by
    rcases hd with h | h
    · exact h
    · obtain ⟨j, hj⟩ := hsome; rw [hj] at h; cases h
  simp only [do_bgfg, List.headD_cons, List.tail_cons, List.head?_cons,
    resolveTarget_ok "bg" hres, hk, if_false, if_true, Shell.kill, Shell.setState,
    Shell.print, hd1]

/-- C5: when the argument of `bg` resolves to the job `J` in slot `i` (a
first character `%` and `getjobjid` on the number that follows, or a first
digit and `getjobpid` on the number) and `kill` succeeds, `do_bgfg` returns
after one call `kill(-J.pid, SIGCONT)`, with `J.state` set to BG and nothing
else of the job list or `nextjid` changed, and with the one line
`[jid] (pid) cmdline` printed, whatever the state of `J` was; a second `bg`
with the same argument returns with the job list unchanged. -/
theorem do_bgfg_bg_resumes (os os2 : Os) (s : Shell) (arg : String) (rest : List String)
    (i : Nat) (J : job_t) (hkill : 0 ≤ os.killRet) (hkill2 : 0 ≤ os2.killRet)
    (hres : (firstChar arg.toList = '%' ∧ getjobjid s.jobs (atoi arg.toList.tail) = some i)
      ∨ (isdigit (firstChar arg.toList) = true ∧ getjobpid s.jobs (atoi arg.toList) = some i))
    (hJ : s.jobs[i]? = some J) :
    ∃ s1, do_bgfg os ("bg" :: arg :: rest) s = .ret s1
      ∧ s1.jobs = s.jobs.set i { J with state := BG }
      ∧ s1.nextjid = s.nextjid
      ∧ s1.kills = s.kills ++ [(-J.pid, SIGCONT)]
      ∧ s1.out = s.out ++ ("[" ++ toString J.jid ++ "] (" ++ toString J.pid ++ ") "
          ++ J.cmdline)
      ∧ ∃ s2, do_bgfg os2 ("bg" :: arg :: rest) s1 = .ret s2 ∧ s2.jobs = s1.jobs := by
  have h1 := do_bgfg_bg_core rest hkill hres
  rw [deref_eq hJ, modify_eq_set _ hJ] at h1
  refine ⟨_, h1, rfl, rfl, rfl, rfl, ?_⟩
  have hlt := (List.getElem?_eq_some.mp hJ).1
  have hJ1 : (s.jobs.set i { J with state := BG })[i]? = some { J with state := BG } := by
    simp [hlt]
  have hres1 : (firstChar arg.toList = '%' ∧
        getjobjid (s.jobs.set i { J with state := BG }) (atoi arg.toList.tail) = some i)
      ∨ (isdigit (firstChar arg.toList) = true ∧
        getjobpid (s.jobs.set i { J with state := BG }) (atoi arg.toList) = some i) := by
    rw [← modify_eq_set (fun j => { j with state := BG }) hJ, getjobjid_setState,
      getjobpid_setState]
    exact hres
  have h2 := do_bgfg_bg_core (s := { s with
      jobs := s.jobs.set i { J with state := BG }
      kills := s.kills ++ [(-J.pid, SIGCONT)]
      out := s.out ++ ("[" ++ toString J.jid ++ "] (" ++ toString J.pid ++ ") "
        ++ J.cmdline) }) rest hkill2 hres1
  refine ⟨_, h2, ?_⟩
  simp only []
  rw [modify_eq_set _ hJ1]
  simp

/-- C5 witness: `bg %2` on the table whose job 2 (pid 101) is stopped. -/
theorem do_bgfg_bg_resumes_witness :
    ∃ s1, do_bgfg osOk ["bg", "%2"] stoppedShell = .ret s1
      ∧ s1.jobs = stoppedShell.jobs.set 1 ⟨101, 2, BG, "vi a.c\n"⟩
      ∧ s1.nextjid = stoppedShell.nextjid
      ∧ s1.kills = stoppedShell.kills ++ [(-101, SIGCONT)]
      ∧ s1.out = stoppedShell.out ++ ("[" ++ toString (2 : Int) ++ "] ("
          ++ toString (101 : Int) ++ ") " ++ "vi a.c\n")
      ∧ ∃ s2, do_bgfg osOk ["bg", "%2"] s1 = .ret s2 ∧ s2.jobs = s1.jobs :=
  do_bgfg_bg_resumes osOk osOk stoppedShell "%2" [] 1 ⟨101, 2, ST, "vi a.c\n"⟩
    (by decide) (by decide) (Or.inl (by decide)) (by decide)

/-- C6: for every command name and job table, `do_bgfg` returns having only
printed (no `kill`, job list unchanged): `<arg>: No such job` when the
argument starts with `%` and no live job has the job id that follows (free
slots being cleared); `(<pid>): No such process` when the argument starts with
a digit and no live job has that pid; and
`<cmd> command requires PID or %jobid argument` when the argument is missing.
The number an argument denotes is what `atoi` reads; in particular for the
decimal numeral of an `int` id or pid the messages are `%<id>: No such job`
and `(<pid>): No such process`, while a numeral above the range of `long`,
which `atoi` reads as -1, gives `(-1): No such process` on every table. -/
theorem do_bgfg_unresolved (os : Os) (s : Shell) (cmd : String) :
    (∀ arg rest, firstChar arg.toList = '%' →
      (∀ j ∈ s.jobs, j.pid = 0 → j.jid = 0) →
      (∀ j ∈ s.jobs, j.pid ≠ 0 → j.jid ≠ atoi arg.toList.tail) →
      do_bgfg os (cmd :: arg :: rest) s
        = .ret { s with out := s.out ++ (arg ++ ": No such job\n") })
    ∧ (∀ arg rest, isdigit (firstChar arg.toList) = true →
      (∀ j ∈ s.jobs, j.pid ≠ 0 → j.pid ≠ atoi arg.toList) →
      do_bgfg os (cmd :: arg :: rest) s
        = .ret { s with out := s.out ++ ("(" ++ toString (atoi arg.toList)
            ++ "): No such process\n") })
    ∧ do_bgfg os [cmd] s
        = .ret { s with out := s.out ++ (cmd ++ " command requires PID or %jobid argument\n") }
    ∧ (∀ (id : Nat) rest, (id : Int) ≤ INT_MAX →
      (∀ j ∈ s.jobs, j.pid = 0 → j.jid = 0) →
      (∀ j ∈ s.jobs, j.pid ≠ 0 → j.jid ≠ id) →
      do_bgfg os (cmd :: ("%" ++ toString id) :: rest) s
        = .ret { s with out := s.out ++ ("%" ++ toString id ++ ": No such job\n") })
    ∧ (∀ (pid : Nat) rest, (pid : Int) ≤ INT_MAX →
      (∀ j ∈ s.jobs, j.pid ≠ 0 → j.pid ≠ pid) →
      do_bgfg os (cmd :: toString pid :: rest) s
        = .ret { s with out := s.out ++ ("(" ++ toString pid ++ "): No such process\n") })
    ∧ do_bgfg os [cmd, "18446744073709551717"] s
        = .ret { s with out := s.out ++ "(-1): No such process\n" } := by
  have key : (∀ arg rest, firstChar arg.toList = '%' →
      (∀ j ∈ s.jobs, j.pid = 0 → j.jid = 0) →
      (∀ j ∈ s.jobs, j.pid ≠ 0 → j.jid ≠ atoi arg.toList.tail) →
      do_bgfg os (cmd :: arg :: rest) s
        = .ret { s with out := s.out ++ (arg ++ ": No such job\n") })
    ∧ (∀ arg rest, isdigit (firstChar arg.toList) = true →
      (∀ j ∈ s.jobs, j.pid ≠ 0 → j.pid ≠ atoi arg.toList) →
      do_bgfg os (cmd :: arg :: rest) s
        = .ret { s with out := s.out ++ ("(" ++ toString (atoi arg.toList)
            ++ "): No such process\n") })
    ∧ do_bgfg os [cmd] s
        = .ret { s with out := s.out ++ (cmd ++ " command requires PID or %jobid argument\n") } := by
    refine ⟨?_, ?_, ?_⟩
    · intro arg rest h1 hfree hlive
      have hnone : getjobjid s.jobs (atoi arg.toList.tail) = none := by
        unfold getjobjid
        split
        · rfl
        · rename_i hge
          rw [findSlot_eq_none]
          intro j hj
          have : j.jid ≠ atoi arg.toList.tail := by
            by_cases h0 : j.pid = 0
            · have := hfree j hj h0
              omega
            · exact hlive j hj h0
          simpa using this
      simp only [do_bgfg, List.headD_cons, List.tail_cons, List.head?_cons, resolveTarget,
        h1, if_true, hnone, Shell.print]
    · intro arg rest h1 hlive
      have hne : firstChar arg.toList ≠ '%' := by
        intro h
        rw [h] at h1
        exact absurd h1 (by decide)
      simp only [do_bgfg, List.headD_cons, List.tail_cons, List.head?_cons, resolveTarget,
        hne, if_false, h1, if_true, getjobpid_absent hlive, Shell.print]
    · simp only [do_bgfg, List.headD_cons, List.tail_cons, List.head?_nil, Shell.print]
  refine ⟨key.1, key.2.1, key.2.2, ?_, ?_, ?_⟩
  · intro id rest hid hfree hlive
    have h := key.1 ("%" ++ toString id) rest (by rw [percent_toList]; rfl) hfree
      (by rw [percent_toList, List.tail_cons, atoi_repr id hid]; exact hlive)
    rw [h, String.append_assoc]
  · intro pid rest hpid hlive
    obtain ⟨_, c, tl, h1, h2, _, _⟩ := atoiDigits_toDigitsCore (pid + 1) pid [] (by omega)
    have hlist : (toString pid).toList = c :: tl := by
      show (Nat.repr pid).toList = c :: tl
      simp only [Nat.repr, Nat.toDigits, List.asString, h1]
      rfl
    have h := key.2.1 (toString pid) rest (by rw [hlist]; exact h2)
      (by rw [atoi_repr pid hpid]; exact hlive)
    rw [h, atoi_repr pid hpid, toString_natCast]
  · have hd : isdigit (firstChar "18446744073709551717".toList) = true := by decide
    have hne : firstChar "18446744073709551717".toList ≠ '%' := by decide
    have hat : atoi "18446744073709551717".toList = -1 := by decide
    have hnone : getjobpid s.jobs (-1) = none := by
      unfold getjobpid
      simp
    simp only [do_bgfg, List.headD_cons, List.tail_cons, List.head?_cons, resolveTarget,
      hne, if_false, hd, if_true, hat, hnone, Shell.print]
    rfl

/-- C6 witness: `bg %3` on a table that has only the jobs 1 and 2. -/
theorem do_bgfg_unresolved_witness :
    do_bgfg osOk ["bg", "%3"] twoJobs
      = .ret { twoJobs with out := twoJobs.out ++ ("%3" ++ ": No such job\n") } :=
  (do_bgfg_unresolved osOk twoJobs "bg").1 "%3" [] (by decide) (by decide) (by decide)

/-- C7 (counterexample): the argument `101x` is neither `%` followed by a
decimal job id nor a bare decimal pid, yet `bg 101x` does not print
`bg: argument must be a PID or %jobid`: it resolves to the job with pid 101,
sends SIGCONT to the process group -101, sets the stopped job to BG and prints
its job line. -/
theorem do_bgfg_malformed_counterexample :
    isJobIdForm "101x" = false ∧ isPidForm "101x" = false
    ∧ do_bgfg osOk ["bg", "101x"] stoppedShell
        ≠ .ret (stoppedShell.print "bg: argument must be a PID or %jobid\n")
    ∧ do_bgfg osOk ["bg", "101x"] stoppedShell
        = .ret { stoppedShell with
            jobs := stoppedShell.jobs.set 1 ⟨101, 2, BG, "vi a.c\n"⟩
            kills := [(-101, SIGCONT)]
            out := "[2] (101) vi a.c\n" } := by
  decide

/-- C7 (amended): for every command name and job table, when the first
character of the argument is neither `%` nor a decimal digit (in particular
when the argument is empty), `do_bgfg` prints
`<cmd>: argument must be a PID or %jobid` and returns with no `kill` call and
the job list unchanged. -/
theorem do_bgfg_malformed (os : Os) (s : Shell) (cmd arg : String) (rest : List String)
    (hpct : firstChar arg.toList ≠ '%') (hdig : isdigit (firstChar arg.toList) = false) :
    do_bgfg os (cmd :: arg :: rest) s
      = .ret { s with out := s.out ++ (cmd ++ ": argument must be a PID or %jobid\n") } := by
  simp only [do_bgfg, List.headD_cons, List.tail_cons, List.head?_cons, resolveTarget,
    hpct, if_false, hdig, Shell.print]
  simp

/-- C7 witness: `fg -5` on the two-job table. -/
theorem do_bgfg_malformed_witness :
    firstChar "-5".toList ≠ '%' ∧ isdigit (firstChar "-5".toList) = false
    ∧ do_bgfg osOk ["fg", "-5"] twoJobs
      = .ret { twoJobs with out := twoJobs.out ++ ("fg" ++ ": argument must be a PID or %jobid\n") } :=
  ⟨by decide, by decide, do_bgfg_malformed osOk twoJobs "fg" "-5" [] (by decide) (by decide)⟩

/-! ## The SIGCHLD handler -/

theorem deletejob_of_first {s : Shell} {p : Int} {i : Nat} {J : job_t}
    (hp : 1 ≤ p) (hJ : s.jobs[i]? = some J) (hpid : J.pid = p)
    (hfirst : ∀ k x, k < i → s.jobs[k]? = some x → x.pid ≠ p) :
    deletejob s p = (1, { s with
      jobs := s.jobs.set i ⟨0, 0, UNDEF, ""⟩
      nextjid := int32 (maxjid (s.jobs.set i ⟨0, 0, UNDEF, ""⟩) + 1) }) := by
  have hget := getjobpid_of_first hp hJ hpid hfirst
  unfold getjobpid at hget
  have hnlt : ¬ p < 1 := by omega
  simp only [hnlt, if_false] at hget
  simp only [deletejob, hnlt, if_false, hget, modify_eq_set clearjob hJ, clearjob]

theorem reap_terminated_core {s : Shell} {p : Int} {i : Nat} {J : job_t}
    (hp : 0 < p) (hJ : s.jobs[i]? = some J) (hpid : J.pid = p)
    (huniq : ∀ k x, s.jobs[k]? = some x → x.pid = p → k = i) :
    ∀ x ∈ s.jobs.set i ⟨0, 0, UNDEF, ""⟩, x.pid ≠ p := by
  intro x hx
  obtain ⟨k, hk⟩ := List.getElem?_of_mem hx
  rw [List.getElem?_set] at hk
  by_cases hik : i = k
  · subst hik
    have hlt := (List.getElem?_eq_some.mp hJ).1
    simp only [if_true, hlt] at hk
    cases hk
    simp only []
    omega
  · simp only [hik, if_false] at hk
    intro hxp
    exact hik (huniq k x hk hxp).symm

/-- C8: when pid `p` is live in slot `i` with job id `j` and no other slot has
pid `p`, the handler run on the event "p terminated by signal N" prints exactly
`Job [j] (p) terminated by signal N` and a newline, and run on "p exited" it
prints nothing; in both cases slot `i` becomes (0, 0, UNDEF, empty command
line), every other slot is unchanged and no slot has pid `p`. -/
theorem sigchld_handler_terminated (s : Shell) (p j N code : Int) (i : Nat) (J : job_t)
    (hp : 0 < p) (hJ : s.jobs[i]? = some J) (hpid : J.pid = p) (hjid : J.jid = j)
    (huniq : ∀ k x, s.jobs[k]? = some x → x.pid = p → k = i) :
    (∃ s1, sigchld_handler [(p, .signaled N)] s = some s1
      ∧ s1.out = s.out ++ ("Job [" ++ toString j ++ "] (" ++ toString p
          ++ ") terminated by signal " ++ toString N ++ "\n")
      ∧ s1.jobs = s.jobs.set i ⟨0, 0, UNDEF, ""⟩
      ∧ (∀ x ∈ s1.jobs, x.pid ≠ p) ∧ s1.kills = s.kills)
    ∧ (∃ s2, sigchld_handler [(p, .exited code)] s = some s2
      ∧ s2.out = s.out
      ∧ s2.jobs = s.jobs.set i ⟨0, 0, UNDEF, ""⟩
      ∧ (∀ x ∈ s2.jobs, x.pid ≠ p) ∧ s2.kills = s.kills) := by
  have hfirst : ∀ k x, k < i → s.jobs[k]? = some x → x.pid ≠ p := by
    intro k x hk hx hxp
    have := huniq k x hx hxp
    omega
  have hgone := reap_terminated_core hp hJ hpid huniq
  have hjid2 : pid2jid s.jobs p = j := by
    rw [pid2jid_of_first (by omega) hJ hpid hfirst, hjid]
  constructor
  · have hrun : sigchld_handler [(p, .signaled N)] s
        = some (deletejob (s.print ("Job [" ++ toString (pid2jid s.jobs p) ++ "] ("
            ++ toString p ++ ") terminated by signal " ++ toString N ++ "\n")) p).2 := by
      simp only [sigchld_handler, hp, gt_iff_lt, if_true, reap]
    rw [deletejob_of_first (s := s.print ("Job [" ++ toString (pid2jid s.jobs p) ++ "] ("
      ++ toString p ++ ") terminated by signal " ++ toString N ++ "\n"))
      (by omega) hJ hpid hfirst, hjid2] at hrun
    exact ⟨_, hrun, rfl, rfl, hgone, rfl⟩
  · have hrun : sigchld_handler [(p, .exited code)] s = some (deletejob s p).2 := by
      simp only [sigchld_handler, hp, gt_iff_lt, if_true, reap]
    rw [deletejob_of_first (by omega) hJ hpid hfirst] at hrun
    exact ⟨_, hrun, rfl, rfl, hgone, rfl⟩

/-- C8 witness: the job with pid 101 of the two-job table is killed by SIGINT. -/
theorem sigchld_handler_terminated_witness :
    ∃ s1, sigchld_handler [(101, .signaled 2)] twoJobs = some s1
      ∧ s1.out = twoJobs.out ++ ("Job [" ++ toString (2 : Int) ++ "] (" ++ toString (101 : Int)
          ++ ") terminated by signal " ++ toString (2 : Int) ++ "\n")
      ∧ s1.jobs = twoJobs.jobs.set 1 ⟨0, 0, UNDEF, ""⟩
      ∧ (∀ x ∈ s1.jobs, x.pid ≠ 101) ∧ s1.kills = twoJobs.kills :=
  (sigchld_handler_terminated twoJobs 101 2 2 0 1 ⟨101, 2, BG, "sleep 9 &\n"⟩
    (by decide) (by decide) rfl rfl (by
      intro k x hk hx
      by_contra hne
      have hlt : k < 16 := (List.getElem?_eq_some.mp hk).1
      revert x
      interval_cases k <;> intro x hk hx <;> simp [twoJobs, runOps, applyOp, addjob, findSlot,
        initShell, initjobs, zeroJobs, clearjob, MAXJOBS, List.replicate, int32] at hk
        <;> subst hk <;> simp at hx hne)).1

/-- C9: when the first slot that holds pid `p` is slot `i`, with job id `j`,
the handler run on the event "p stopped by signal N" sets the state of that
job to ST, prints exactly `Job [j] (p) stopped by signal N` and a newline, and
leaves the job's pid, job id and command line, every other slot, `nextjid` and
the rest of the shell unchanged. -/
theorem sigchld_handler_stopped (s : Shell) (p j N : Int) (i : Nat) (J : job_t)
    (hp : 0 < p) (hJ : s.jobs[i]? = some J) (hpid : J.pid = p) (hjid : J.jid = j)
    (hfirst : ∀ k x, k < i → s.jobs[k]? = some x → x.pid ≠ p) :
    sigchld_handler [(p, .stopped N)] s
      = some { s with
          jobs := s.jobs.set i { J with state := ST }
          out := s.out ++ ("Job [" ++ toString j ++ "] (" ++ toString p
            ++ ") stopped by signal " ++ toString N ++ "\n") } := by
  have hget := getjobpid_of_first (by omega) hJ hpid hfirst
  have hlt := (List.getElem?_eq_some.mp hJ).1
  have hJ1 : (s.jobs.set i { J with state := ST })[i]? = some { J with state := ST } := by
    simp [hlt]
  have hfirst1 : ∀ k x, k < i → (s.jobs.set i { J with state := ST })[k]? = some x →
      x.pid ≠ p := by
    intro k x hk hx
    rw [List.getElem?_set_ne (by omega)] at hx
    exact hfirst k x hk hx
  have hjid1 : pid2jid (s.jobs.set i { J with state := ST }) p = j := by
    rw [pid2jid_of_first (by omega) hJ1 hpid hfirst1]
    exact hjid
  simp only [sigchld_handler, hp, gt_iff_lt, if_true, reap, hget, Shell.setState,
    modify_eq_set _ hJ, Shell.print, hjid1]

/-- C9 witness: the foreground job (pid 100) of the two-job table is stopped
by SIGTSTP. -/
theorem sigchld_handler_stopped_witness :
    sigchld_handler [(100, .stopped 20)] twoJobs
      = some { twoJobs with
          jobs := twoJobs.jobs.set 0 ⟨100, 1, ST, "vi a.c\n"⟩
          out := twoJobs.out ++ ("Job [" ++ toString (1 : Int) ++ "] (" ++ toString (100 : Int)
            ++ ") stopped by signal " ++ toString (20 : Int) ++ "\n") } :=
  sigchld_handler_stopped twoJobs 100 1 20 0 ⟨100, 1, FG, "vi a.c\n"⟩
    (by decide) (by decide) rfl rfl (by intro k x hk; omega)

/-! ## A full job table -/

set_option maxRecDepth 100000 in
/-- C10 (code at the failing input): on the table whose 16 slots are all
live, `eval` of the background command `./prog` (child pid 300) prints
`Tried to create too many jobs` and then still prints the job line
`[0] (300) ./prog &`; the job list is unchanged and `eval` returns (for the
foreground command `./prog` it goes on to `waitfg(300)`, which finds no job).
For the child 300, which is not in the table, the events "exited" and
"terminated by signal" leave the job list unchanged, but on "stopped by
signal" the lookup `getjobpid(jobs, 300)` is NULL and the handler
dereferences it. -/
theorem eval_full_table_untracked_child :
    (∀ j ∈ fullShell.jobs, j.pid ≠ 0)
    ∧ eval osOk "./prog &\n" fullShell
        = .ret { fullShell with
            out := "Tried to create too many jobs\n[0] (300) ./prog &\n" }
    ∧ eval osOk "./prog\n" fullShell
        = .waitfg 300 { fullShell with out := "Tried to create too many jobs\n" }
    ∧ (sigchld_handler [(300, .exited 0)] fullShell).map (fun s => s.jobs)
        = some fullShell.jobs
    ∧ (sigchld_handler [(300, .signaled 9)] fullShell).map (fun s => s.jobs)
        = some fullShell.jobs
    ∧ getjobpid fullShell.jobs 300 = none
    ∧ sigchld_handler [(300, .stopped 20)] fullShell = none := by
  decide

/-! ## At most one foreground job -/

theorem kept_of_calm {y x : job_t} (h : Calm y x) : Kept y x := by
  rcases h with rfl | ⟨_, h⟩
  · exact Or.inr ⟨rfl, rfl⟩
  · exact h

theorem keptTable_of_calmTable {old new : List job_t} (h : CalmTable old new) :
    KeptTable old new :=
  ⟨h.1, fun k x y hy hx => kept_of_calm (h.2 k x y hy hx)⟩

theorem calmTable_refl (l : List job_t) : CalmTable l l :=
  ⟨rfl, fun k x y hy hx => Or.inl (by rw [hy] at hx; cases hx; rfl)⟩

theorem getElem?_of_length_eq {old new : List job_t} (hlen : new.length = old.length)
    {k : Nat} {x : job_t} (hx : new[k]? = some x) : ∃ y, old[k]? = some y := by
  have hlt := (List.getElem?_eq_some.mp hx).1
  have hk : k < old.length := by omega
  exact ⟨old[k], List.getElem?_eq_getElem hk⟩

theorem calmTable_trans {a b c : List job_t} (h1 : CalmTable a b) (h2 : CalmTable b c) :
    CalmTable a c := by
  refine ⟨h2.1.trans h1.1, ?_⟩
  intro k x y hy hx
  obtain ⟨z, hz⟩ := getElem?_of_length_eq h2.1 hx
  have c1 := h1.2 k z y hy hz
  have c2 := h2.2 k x z hz hx
  rcases c2 with rfl | ⟨hst, hk2⟩
  · exact c1
  · right
    refine ⟨hst, ?_⟩
    rcases hk2 with h0 | ⟨hp, hj⟩
    · exact Or.inl h0
    · rcases kept_of_calm c1 with ⟨hp0, hj0⟩ | ⟨hp1, hj1⟩
      · exact Or.inl ⟨by omega, by omega⟩
      · exact Or.inr ⟨by omega, by omega⟩

theorem calmTable_modify (l : List job_t) (i : Nat) (f : job_t → job_t)
    (hf : ∀ y, (f y).state ≠ FG ∧ Kept y (f y)) : CalmTable l (l.modify f i) := by
  refine ⟨by simp, ?_⟩
  intro k x y hy hx
  rw [List.getElem?_modify, hy] at hx
  simp only [Option.map_eq_map, Option.map_some', Option.some.injEq] at hx
  by_cases hik : i = k
  · simp only [hik, if_true] at hx
    subst hx
    exact Or.inr (hf y)
  · simp only [hik, if_false] at hx
    exact Or.inl hx.symm

theorem tableOk_of_kept {old new : List job_t} (hok : TableOk old) (h : KeptTable old new) :
    TableOk new := by
  obtain ⟨hlen, hk⟩ := h
  constructor
  · intro x hx
    obtain ⟨k, hkx⟩ := List.getElem?_of_mem hx
    obtain ⟨y, hy⟩ := getElem?_of_length_eq hlen hkx
    have hy' := hok.1 y (List.getElem?_mem hy)
    rcases hk k x y hy hkx with ⟨h1, h2⟩ | ⟨h1, h2⟩
    · exact ⟨by omega, fun _ => h2⟩
    · exact ⟨by omega, fun h0 => by rw [h2]; exact hy'.2 (by omega)⟩
  · intro i j x y hx hy hx0 hxy
    obtain ⟨xo, hxo⟩ := getElem?_of_length_eq hlen hx
    obtain ⟨yo, hyo⟩ := getElem?_of_length_eq hlen hy
    have kx := hk i x xo hxo hx
    have ky := hk j y yo hyo hy
    have e1 : x.pid = xo.pid := by
      rcases kx with ⟨h1, _⟩ | ⟨h1, _⟩
      · exact absurd h1 hx0
      · exact h1
    have e2 : y.pid = yo.pid := by
      rcases ky with ⟨h1, _⟩ | ⟨h1, _⟩
      · exact absurd (by omega) hx0
      · exact h1
    exact hok.2 i j xo yo hxo hyo (by omega) (by omega)

theorem modeOk_of_calm {old new : List job_t} {m : Mode} (hm : ModeOk old m)
    (h : CalmTable old new) : ModeOk new m := by
  obtain ⟨hlen, hc⟩ := h
  have hfg : ∀ (k : Nat) (x : job_t), new[k]? = some x → x.state = FG → old[k]? = some x := by
    intro k x hx hst
    obtain ⟨y, hy⟩ := getElem?_of_length_eq hlen hx
    rcases hc k x y hy hx with rfl | ⟨hne, _⟩
    · exact hy
    · exact absurd hst hne
  cases m with
  | prompt =>
    intro x hx hst
    obtain ⟨k, hkx⟩ := List.getElem?_of_mem hx
    exact hm x (List.getElem?_mem (hfg k x hkx hst)) hst
  | waitfgEntry pid =>
    intro k x hx hst
    have hold := hm k x (hfg k x hx hst) hst
    obtain ⟨hp, y, hy, hyp, hfirst⟩ := getjobpid_some hold
    have hyx : y = x := by
      have := hfg k x hx hst
      rw [hy] at this
      exact Option.some.inj this
    subst hyx
    refine getjobpid_of_first hp hx hyp ?_
    intro j z hj hz
    obtain ⟨zo, hzo⟩ := getElem?_of_length_eq hlen hz
    have := hfirst j zo hj hzo
    rcases kept_of_calm (hc j z zo hzo hz) with ⟨h0, _⟩ | ⟨h1, _⟩
    · omega
    · omega
  | waitfgLoop i pid =>
    intro k x hx hst
    exact hm k x (hfg k x hx hst) hst
  | bgfgSignalled argv0 i => exact hm.elim

theorem inv_of_calm {s s1 : Shell} {m : Mode} (h : Inv ⟨s, m⟩)
    (hc : CalmTable s.jobs s1.jobs) : Inv ⟨s1, m⟩ :=
  ⟨tableOk_of_kept h.1 (keptTable_of_calmTable hc), modeOk_of_calm h.2 hc⟩

theorem deletejob_calm (s : Shell) (p : Int) : CalmTable s.jobs (deletejob s p).2.jobs := by
  unfold deletejob
  split
  · exact calmTable_refl _
  · split
    · exact calmTable_modify _ _ _
        (fun y => ⟨by simp [clearjob, UNDEF, FG], Or.inl ⟨rfl, rfl⟩⟩)
    · exact calmTable_refl _

theorem setState_calm (s : Shell) (i : Nat) (st : Int) (hst : st ≠ FG) :
    CalmTable s.jobs (s.setState i st).jobs :=
  calmTable_modify _ _ _ (fun _ => ⟨hst, Or.inr ⟨rfl, rfl⟩⟩)

theorem reap_calm {p : Int} {st : Status} {s s1 : Shell} (h : reap p st s = some s1) :
    CalmTable s.jobs s1.jobs := by
  cases st with
  | exited code =>
    simp only [reap, Option.some.injEq] at h
    subst h
    exact deletejob_calm s p
  | signaled sig =>
    simp only [reap, Option.some.injEq] at h
    subst h
    exact deletejob_calm (s.print _) p
  | stopped sig =>
    simp only [reap] at h
    cases hg : getjobpid s.jobs p with
    | none => simp [hg] at h
    | some i =>
      simp only [hg, Option.some.injEq] at h
      subst h
      exact setState_calm s i ST (by decide)

theorem sigchld_handler_calm {events : List (Int × Status)} {s s1 : Shell}
    (h : sigchld_handler events s = some s1) : CalmTable s.jobs s1.jobs := by
  induction events generalizing s with
  | nil =>
    simp only [sigchld_handler, Option.some.injEq] at h
    subst h
    exact calmTable_refl _
  | cons e rest ih =>
    obtain ⟨p, st⟩ := e
    simp only [sigchld_handler] at h
    by_cases hp : p > 0
    · simp only [hp, if_true] at h
      cases hr : reap p st s with
      | none => simp [hr] at h
      | some s2 =>
        simp only [hr] at h
        exact calmTable_trans (reap_calm hr) (ih h)
    · simp only [hp, if_false, Option.some.injEq] at h
      subst h
      exact calmTable_refl _

theorem sigint_handler_jobs {os : Os} {sig : Int} {s s1 : Shell}
    (h : sigint_handler os sig s = .ret s1) : s1.jobs = s.jobs := by
  unfold sigint_handler at h
  simp only [] at h
  split at h
  · split at h
    · simp [unix_error] at h
    · cases h; rfl
  · cases h; rfl

theorem sigtstp_handler_jobs {os : Os} {sig : Int} {s s1 : Shell}
    (h : sigtstp_handler os sig s = .ret s1) : s1.jobs = s.jobs := by
  unfold sigtstp_handler at h
  simp only [] at h
  split at h
  · split at h
    · simp [unix_error] at h
    · cases h; rfl
  · cases h; rfl

theorem resolveTarget_error {argv0 arg : String} {s s1 : Shell}
    (h : resolveTarget argv0 arg s = .error s1) : s1.jobs = s.jobs := by
  unfold resolveTarget at h
  split at h
  · simp only [] at h
    split at h
    · cases h; rfl
    · cases h
  · split at h
    · simp only [] at h
      split at h
      · cases h; rfl
      · cases h
    · cases h; rfl

theorem resolveTarget_ok_inv {argv0 arg : String} {s : Shell} {i : Nat} {pid : Int}
    (h : resolveTarget argv0 arg s = .ok (i, pid)) :
    ∃ J, s.jobs[i]? = some J ∧ pid = J.pid ∧ (1 ≤ J.jid ∨ 1 ≤ J.pid) := by
  unfold resolveTarget at h
  split at h
  · simp only [] at h
    split at h
    · cases h
    · rename_i k hk
      cases h
      obtain ⟨h1, J, hJ, hjid, _⟩ := getjobjid_some hk
      exact ⟨J, hJ, by rw [deref_eq hJ], Or.inl (by omega)⟩
  · split at h
    · simp only [] at h
      split at h
      · cases h
      · rename_i k hk
        cases h
        obtain ⟨h1, J, hJ, hpid, _⟩ := getjobpid_some hk
        exact ⟨J, hJ, hpid.symm, Or.inr (by omega)⟩
    · cases h

theorem do_bgfg_ret {os : Os} {argv : List String} {s s1 : Shell}
    (h : do_bgfg os argv s = .ret s1) : CalmTable s.jobs s1.jobs := by
  unfold do_bgfg at h
  simp only [] at h
  split at h
  · cases h; exact calmTable_refl _
  · rename_i arg _
    split at h
    · rename_i s2 hr
      cases h
      rw [resolveTarget_error hr]
      exact calmTable_refl _
    · rename_i i pid hr
      split at h
      · simp [unix_error] at h
      · split at h
        · cases h
          exact setState_calm (s.kill (-pid) SIGCONT) i BG (by decide)
        · cases h

theorem do_bgfg_waitfg {os : Os} {argv : List String} {s s1 : Shell} {pid : Int}
    (h : do_bgfg os argv s = .waitfg pid s1) :
    ∃ i J, s.jobs[i]? = some J ∧ (1 ≤ J.jid ∨ 1 ≤ J.pid) ∧ pid = J.pid
      ∧ s1.jobs = s.jobs.set i { J with state := FG } := by
  unfold do_bgfg at h
  simp only [] at h
  split at h
  · cases h
  · rename_i arg _
    split at h
    · cases h
    · rename_i i p hr
      obtain ⟨J, hJ, _, hpos⟩ := resolveTarget_ok_inv hr
      have hlt := (List.getElem?_eq_some.mp hJ).1
      have hJ1 : (s.jobs.set i { J with state := FG })[i]? = some { J with state := FG } := by
        simp [hlt]
      split at h
      · simp [unix_error] at h
      · split at h
        · cases h
        · cases h
          refine ⟨i, J, hJ, hpos, ?_, ?_⟩
          · simp only [Shell.setState, Shell.kill, modify_eq_set _ hJ, deref_eq hJ1]
          · simp only [Shell.setState, Shell.kill, modify_eq_set _ hJ]

theorem listjobs_jobs (s : Shell) : (listjobs s).jobs = s.jobs := rfl

theorem builtin_cmd_ret {os : Os} {argv : List String} {s s1 : Shell} {o : Outcome}
    (hb : builtin_cmd os argv s = some o) (h : o = .ret s1) : CalmTable s.jobs s1.jobs := by
  unfold builtin_cmd at hb
  simp only [] at hb
  split at hb
  · cases hb; cases h
  · split at hb
    · cases hb; cases h; exact calmTable_refl _
    · split at hb
      · cases hb; exact do_bgfg_ret h
      · split at hb
        · cases hb; cases h; exact calmTable_refl _
        · cases hb

theorem builtin_cmd_waitfg {os : Os} {argv : List String} {s s1 : Shell} {o : Outcome}
    {pid : Int} (hb : builtin_cmd os argv s = some o) (h : o = .waitfg pid s1) :
    ∃ i J, s.jobs[i]? = some J ∧ (1 ≤ J.jid ∨ 1 ≤ J.pid) ∧ pid = J.pid
      ∧ s1.jobs = s.jobs.set i { J with state := FG } := by
  unfold builtin_cmd at hb
  simp only [] at hb
  split at hb
  · cases hb; cases h
  · split at hb
    · cases hb; cases h
    · split at hb
      · cases hb; exact do_bgfg_waitfg h
      · split at hb
        · cases hb; cases h
        · cases hb

theorem eval_ret {os : Os} {cmdline : String} {s s1 : Shell}
    (h : eval os cmdline s = .ret s1) :
    CalmTable s.jobs s1.jobs
    ∨ (0 < os.forkRet ∧ ∃ s0, sigchld_handler os.reaped (addjob s os.forkRet BG cmdline).2 = some s0
        ∧ s1.jobs = s0.jobs) := by
  unfold eval at h
  simp only [] at h
  split at h
  · cases h
  · split at h
    · cases h; exact Or.inl (calmTable_refl _)
    · split at h
      · rename_i o hb
        exact Or.inl (builtin_cmd_ret hb h)
      · split at h
        · simp [unix_error] at h
        · split at h
          · split at h <;> cases h
          · split at h
            · split at h <;> cases h
            · split at h
              · cases h
              · rename_i s0 hrun
                cases h
                exact Or.inr ⟨by omega, s0, hrun, rfl⟩

theorem eval_waitfg {os : Os} {cmdline : String} {s s1 : Shell} {pid : Int}
    (h : eval os cmdline s = .waitfg pid s1) :
    (∃ i J, s.jobs[i]? = some J ∧ (1 ≤ J.jid ∨ 1 ≤ J.pid) ∧ pid = J.pid
      ∧ s1.jobs = s.jobs.set i { J with state := FG })
    ∨ (0 < os.forkRet ∧ pid = os.forkRet
      ∧ sigchld_handler os.reaped (addjob s os.forkRet FG cmdline).2 = some s1) := by
  unfold eval at h
  simp only [] at h
  split at h
  · cases h
  · split at h
    · cases h
    · split at h
      · rename_i o hb
        exact Or.inl (builtin_cmd_waitfg hb h)
      · split at h
        · simp [unix_error] at h
        · split at h
          · split at h <;> cases h
          · split at h
            · split at h
              · cases h
              · rename_i s0 hrun
                cases h
                exact Or.inr ⟨by omega, rfl, hrun⟩
            · split at h <;> cases h

theorem addjob_jobs (s : Shell) (p st : Int) (c : String) :
    (addjob s p st c).2.jobs = s.jobs
    ∨ (1 ≤ p ∧ ∃ i, findSlot (fun j => j.pid == 0) s.jobs = some i
        ∧ (addjob s p st c).2.jobs = s.jobs.set i ⟨p, s.nextjid, st, c⟩) := by
  unfold addjob
  split
  · exact Or.inl rfl
  · split
    · rename_i hp i hi
      right
      refine ⟨by omega, i, hi, ?_⟩
      simp only []
      split <;> rfl
    · exact Or.inl rfl

theorem tableOk_set_new {l : List job_t} {i : Nat} {p n st : Int} {c : String}
    (hok : TableOk l) (hp : 1 ≤ p) (hfresh : ∀ j ∈ l, j.pid ≠ p) :
    TableOk (l.set i ⟨p, n, st, c⟩) := by
  constructor
  · intro x hx
    obtain ⟨k, hk⟩ := List.getElem?_of_mem hx
    rw [List.getElem?_set] at hk
    split at hk
    · split at hk
      · cases hk
        exact ⟨by simp only []; omega, fun h0 => by simp only [] at h0; omega⟩
      · cases hk
    · exact hok.1 x (List.getElem?_mem hk)
  · intro a b x y hx hy hx0 hxy
    rw [List.getElem?_set] at hx hy
    by_cases ha : i = a
    · by_cases hb : i = b
      · omega
      · simp only [hb, if_false] at hy
        simp only [ha, if_true] at hx
        split at hx
        · cases hx
          exact absurd hxy.symm (hfresh y (List.getElem?_mem hy))
        · cases hx
    · simp only [ha, if_false] at hx
      by_cases hb : i = b
      · simp only [hb, if_true] at hy
        split at hy
        · cases hy
          exact absurd hxy (hfresh x (List.getElem?_mem hx))
        · cases hy
      · simp only [hb, if_false] at hy
        exact hok.2 a b x y hx hy hx0 hxy

theorem countP_le_one_of_unique (P : job_t → Bool) (l : List job_t)
    (h : ∀ (i j : Nat) (x y : job_t), l[i]? = some x → l[j]? = some y →
      P x = true → P y = true → i = j) : l.countP P ≤ 1 := by
  induction l with
  | nil => simp
  | cons a l ih =>
    have ih' := ih (fun i j x y hx hy px py => by
      have := h (i + 1) (j + 1) x y (by simpa using hx) (by simpa using hy) px py
      omega)
    by_cases ha : P a = true
    · have hzero : l.countP P = 0 := by
        rw [List.countP_eq_zero]
        intro x hx px
        obtain ⟨k, hk⟩ := List.getElem?_of_mem hx
        have := h 0 (k + 1) a x (by simp) (by simpa using hk) ha px
        omega
      rw [List.countP_cons_of_pos _ _ ha, hzero]
    · rw [List.countP_cons_of_neg _ _ ha]
      exact ih'

theorem fgCount_le_one_of_modeOk {jobs : List job_t} {m : Mode} (h : ModeOk jobs m) :
    fgCount jobs ≤ 1 := by
  apply countP_le_one_of_unique
  intro i j x y hx hy px py
  have px' : x.state = FG := by simpa using px
  have py' : y.state = FG := by simpa using py
  cases m with
  | prompt => exact absurd px' (h x (List.getElem?_mem hx))
  | waitfgEntry pid =>
    have h1 := h i x hx px'
    have h2 := h j y hy py'
    rw [h1] at h2
    exact Option.some.inj h2
  | waitfgLoop k pid =>
    have h1 := (h i x hx px').1
    have h2 := (h j y hy py').1
    omega
  | bgfgSignalled argv0 k => exact h.elim

theorem keptTable_set {l : List job_t} {i : Nat} {J x : job_t} (hJ : l[i]? = some J)
    (hk : Kept J x) : KeptTable l (l.set i x) := by
  refine ⟨by simp, ?_⟩
  intro k a b hb ha
  rw [List.getElem?_set] at ha
  by_cases hik : i = k
  · subst hik
    simp only [if_true] at ha
    split at ha
    · cases ha
      rw [hJ] at hb
      cases hb
      exact hk
    · cases ha
  · simp only [hik, if_false] at ha
    rw [hb] at ha
    cases ha
    exact Or.inr ⟨rfl, rfl⟩

theorem inv_init (verbose : Bool) : Inv ⟨initShell verbose, .prompt⟩ := by
  have hall : ∀ x ∈ (initShell verbose).jobs, x = ⟨0, 0, UNDEF, ""⟩ := by
    intro x hx
    simp only [initShell, initjobs, List.mem_map] at hx
    obtain ⟨y, _, rfl⟩ := hx
    rfl
  refine ⟨⟨?_, ?_⟩, ?_⟩
  · intro x hx
    rw [hall x hx]
    exact ⟨by decide, fun _ => rfl⟩
  · intro i j x y hx _ hx0 _
    rw [hall x (List.getElem?_mem hx)] at hx0
    exact absurd rfl hx0
  · intro x hx
    rw [hall x hx]
    decide

theorem modeOk_entry_of_set {l : List job_t} {i : Nat} {x : job_t}
    (hprompt : ∀ y ∈ l, y.state ≠ FG) (hi : i < l.length) (hp : 1 ≤ x.pid)
    (hfirst : ∀ (k : Nat) (y : job_t), k < i → l[k]? = some y → y.pid ≠ x.pid) :
    ModeOk (l.set i x) (.waitfgEntry x.pid) := by
  intro k a ha hst
  rw [List.getElem?_set] at ha
  by_cases hik : i = k
  · subst hik
    refine getjobpid_of_first (j := x) hp (by simp [hi]) rfl ?_
    intro j y hj hy
    rw [List.getElem?_set_ne (by omega)] at hy
    exact hfirst j y hj hy
  · simp only [hik, if_false] at ha
    exact absurd hst (hprompt a (List.getElem?_mem ha))

theorem inv_addjob_bg {s s1 : Shell} {p : Int} {c : String} (h : Inv ⟨s, .prompt⟩)
    (hfresh : ∀ j ∈ s.jobs, j.pid ≠ p) (hj : s1.jobs = (addjob s p BG c).2.jobs) :
    Inv ⟨s1, .prompt⟩ := by
  rcases addjob_jobs s p BG c with hsame | ⟨hp, i, _, hset⟩
  · rw [hsame] at hj
    exact ⟨by rw [show s1.jobs = s.jobs from hj]; exact h.1,
      by rw [show s1.jobs = s.jobs from hj]; exact h.2⟩
  · rw [hset] at hj
    refine ⟨?_, ?_⟩
    · rw [show s1.jobs = _ from hj]
      exact tableOk_set_new h.1 hp hfresh
    · rw [show s1.jobs = _ from hj]
      intro x hx
      rcases List.mem_or_eq_of_mem_set hx with hx | rfl
      · exact h.2 x hx
      · simp [BG, FG]

theorem inv_addjob_fg {s s1 : Shell} {p : Int} {c : String} (h : Inv ⟨s, .prompt⟩)
    (hfresh : ∀ j ∈ s.jobs, j.pid ≠ p) (hj : s1.jobs = (addjob s p FG c).2.jobs) :
    Inv ⟨s1, .waitfgEntry p⟩ := by
  have hprompt : ∀ y ∈ s.jobs, y.state ≠ FG := h.2
  rcases addjob_jobs s p FG c with hsame | ⟨hp, i, hi, hset⟩
  · rw [hsame] at hj
    refine ⟨by rw [show s1.jobs = s.jobs from hj]; exact h.1, ?_⟩
    rw [show s1.jobs = s.jobs from hj]
    intro k x hx hst
    exact absurd hst (hprompt x (List.getElem?_mem hx))
  · rw [hset] at hj
    refine ⟨?_, ?_⟩
    · rw [show s1.jobs = _ from hj]
      exact tableOk_set_new h.1 hp hfresh
    · rw [show s1.jobs = _ from hj]
      refine modeOk_entry_of_set (x := ⟨p, s.nextjid, FG, c⟩) hprompt
        (findSlot_lt_length hi) hp ?_
      intro k y _ hy
      exact hfresh y (List.getElem?_mem hy)

theorem step_inv {c c1 : Config} (h : Inv c) (hstep : StepWhole c c1) : Inv c1 := by
  cases hstep with
  | evalRet os cmdline s s1 hfresh he =>
    rcases eval_ret he with hc | ⟨hpos, s0, hrun, hj⟩
    · exact inv_of_calm h hc
    · have h0 : Inv ⟨(addjob s os.forkRet BG cmdline).2, .prompt⟩ := inv_addjob_bg h hfresh rfl
      have h2 := inv_of_calm h0 (sigchld_handler_calm hrun)
      exact ⟨by rw [show s1.jobs = s0.jobs from hj]; exact h2.1,
        by rw [show s1.jobs = s0.jobs from hj]; exact h2.2⟩
  | evalWait os cmdline s s1 pid hfresh he =>
    have hprompt : ∀ y ∈ s.jobs, y.state ≠ FG := h.2
    rcases eval_waitfg he with ⟨i, J, hJ, hpos, hpid, hj⟩ | ⟨hpos, hpid, hrun⟩
    · have hlt := (List.getElem?_eq_some.mp hJ).1
      have hJok := h.1.1 J (List.getElem?_mem hJ)
      have hJpid : 1 ≤ J.pid := by
        rcases hpos with hjid | hp
        · by_contra hlt1
          have : J.pid = 0 := by omega
          have := hJok.2 this
          omega
        · exact hp
      refine ⟨?_, ?_⟩
      · rw [show s1.jobs = _ from hj]
        exact tableOk_of_kept h.1 (keptTable_set hJ (Or.inr ⟨rfl, rfl⟩))
      · rw [show s1.jobs = _ from hj, hpid]
        refine modeOk_entry_of_set (x := { J with state := FG }) hprompt hlt hJpid ?_
        intro k y hk hy hyp
        have := h.1.2 k i y J hy hJ (by simp only [] at hyp; omega) hyp
        omega
    · have h0 : Inv ⟨(addjob s os.forkRet FG cmdline).2, .waitfgEntry os.forkRet⟩ :=
        inv_addjob_fg h hfresh rfl
      rw [hpid]
      exact inv_of_calm h0 (sigchld_handler_calm hrun)
  | waitfgNull s pid hnone =>
    refine ⟨h.1, ?_⟩
    intro x hx hst
    obtain ⟨k, hk⟩ := List.getElem?_of_mem hx
    have := h.2 k x hk hst
    rw [hnone] at this
    cases this
  | waitfgFound s pid i hsome =>
    refine ⟨h.1, ?_⟩
    intro k x hx hst
    have := h.2 k x hx hst
    rw [hsome] at this
    have hki : i = k := Option.some.inj this
    subst hki
    obtain ⟨_, y, hy, hyp, _⟩ := getjobpid_some hsome
    rw [hx] at hy
    cases hy
    exact ⟨rfl, hyp⟩
  | waitfgExit s i pid hcond =>
    refine ⟨h.1, ?_⟩
    intro x hx hst
    obtain ⟨k, hk⟩ := List.getElem?_of_mem hx
    obtain ⟨hki, hxp⟩ := h.2 k x hk hst
    subst hki
    simp [waitfgCond, deref_eq hk, hxp, hst] at hcond
  | sigchld events s s1 m hrun => exact inv_of_calm h (sigchld_handler_calm hrun)
  | sigint os sig s s1 m hrun =>
    have hj := sigint_handler_jobs hrun
    exact ⟨by rw [show s1.jobs = s.jobs from hj]; exact h.1,
      by rw [show s1.jobs = s.jobs from hj]; exact h.2⟩
  | sigtstp os sig s s1 m hrun =>
    have hj := sigtstp_handler_jobs hrun
    exact ⟨by rw [show s1.jobs = s.jobs from hj]; exact h.1,
      by rw [show s1.jobs = s.jobs from hj]; exact h.2⟩

theorem reachableWhole_inv {c : Config} (h : ReachableWhole c) : Inv c := by
  obtain ⟨verbose, hr⟩ := h
  induction hr with
  | refl => exact inv_init verbose
  | tail _ hstep ih => exact step_inv ih hstep

/-- When no handler runs between the statements of `do_bgfg` (every command
runs as a whole), at most one slot of the job table has state FG in every
state the shell reaches from the empty job table. -/
theorem reachableWhole_fgCount_le_one (c : Config) (h : ReachableWhole c) :
    fgCount c.sh.jobs ≤ 1 :=
  fgCount_le_one_of_modeOk (reachableWhole_inv h).2

theorem reachableWhole_launch :
    ReachableWhole ⟨(addjob (initShell false) 300 FG "vi a.c\n").2, .waitfgEntry 300⟩ :=
  ⟨false, Relation.ReflTransGen.single
    (StepWhole.evalWait osOk "vi a.c\n" (initShell false) _ 300
      (by unfold freshFork; decide) (by decide))⟩

theorem do_bgfg_split (os : Os) (argv : List String) (s : Shell) (arg : String) (i : Nat)
    (pid : Int) (harg : argv.tail.head? = some arg)
    (hres : resolveTarget (argv.headD "") arg s = .ok (i, pid)) (hk : 0 ≤ os.killRet) :
    do_bgfg os argv s = do_bgfgUpdate (argv.headD "") i (s.kill (-pid) SIGCONT) := by
  have hnk : ¬ os.killRet < 0 := by omega
  unfold do_bgfg do_bgfgUpdate
  simp only [harg, hres, hnk, if_false]

set_option maxRecDepth 100000 in
/-- C2: the shell reaches a state with two slots in state FG.  After the
background launches `sleep 5 &` (pid 100, job 1, slot 0) and `sleep 9 &` (pid
101, job 2, slot 1), the command `fg %1` finds slot 0 and sends SIGCONT; child
100 exits and `sigchld_handler` clears slot 0 before `do_bgfg` assigns
`job->state = FG`, so the cleared slot gets state FG and `waitfg(0)` returns at
once; the next command `fg %2` sets slot 1 to FG.  With the main flow in
`waitfg(101)` the table has two FG slots, `fgpid` returns the pid 0 of the
cleared slot, and `sigint_handler` sends no signal to the foreground job. -/
theorem do_bgfg_race_two_fg :
    Reachable ⟨raceShell, .waitfgEntry 101⟩
    ∧ fgCount raceShell.jobs = 2
    ∧ raceShell.jobs.take 2 = [⟨0, 0, FG, ""⟩, ⟨101, 2, FG, "sleep 9 &\n"⟩]
    ∧ fgpid raceShell.jobs = 0
    ∧ sigint_handler osOk 2 raceShell = .ret raceShell := by
  refine ⟨⟨false, ?_⟩, by decide, by decide, by decide, by decide⟩
  have h1 : Step ⟨initShell false, .prompt⟩
      ⟨(eval (osFork 100) "sleep 5 &\n" (initShell false)).sh, .prompt⟩ :=
    .whole _ _ (.evalRet (osFork 100) "sleep 5 &\n" _ _ (by unfold freshFork; decide)
      (by decide))
  have h2 : Step ⟨(eval (osFork 100) "sleep 5 &\n" (initShell false)).sh, .prompt⟩
      ⟨raceLaunched, .prompt⟩ :=
    .whole _ _ (.evalRet (osFork 101) "sleep 9 &\n" _ _ (by unfold freshFork; decide)
      (by decide))
  have h3 : Step ⟨raceLaunched, .prompt⟩ ⟨raceSignalled, .bgfgSignalled "fg" 0⟩ :=
    .bgfgSignal osOk "fg %1\n" ["fg", "%1"] false "%1" raceLaunched 0 100
      (by decide) (by decide) (by decide) (by rfl) (by decide)
  have h4 : Step ⟨raceSignalled, .bgfgSignalled "fg" 0⟩ ⟨raceReaped, .bgfgSignalled "fg" 0⟩ :=
    .whole _ _ (.sigchld [(100, .exited 0)] _ _ _ (by decide))
  have h5 : Step ⟨raceReaped, .bgfgSignalled "fg" 0⟩ ⟨raceUpdated, .waitfgEntry 0⟩ :=
    .bgfgWait "fg" 0 _ _ 0 (by decide)
  have h6 : Step ⟨raceUpdated, .waitfgEntry 0⟩ ⟨raceUpdated, .prompt⟩ :=
    .whole _ _ (.waitfgNull _ 0 (by decide))
  have h7 : Step ⟨raceUpdated, .prompt⟩ ⟨raceShell, .waitfgEntry 101⟩ :=
    .whole _ _ (.evalWait (osFork 102) "fg %2\n" _ _ 101 (by unfold freshFork; decide)
      (by decide))
  exact ((((((Relation.ReflTransGen.single h1).tail h2).tail h3).tail h4).tail h5).tail
    h6).tail h7


/-! ## Launching a background job -/

theorem findSlot_free_of_exists {l : List job_t} (h : ∃ j ∈ l, j.pid = 0) :
    ∃ i old, findSlot (fun j => j.pid == 0) l = some i ∧ l[i]? = some old ∧ old.pid = 0
      ∧ ∀ (k : Nat) (x : job_t), k < i → l[k]? = some x → x.pid ≠ 0 := by
  cases hf : findSlot (fun j => j.pid == 0) l with
  | none =>
    obtain ⟨j, hj, hj0⟩ := h
    have := findSlot_eq_none.mp hf j hj
    simp [hj0] at this
  | some i =>
    obtain ⟨old, hold, hp, hfirst⟩ := findSlot_eq_some hf
    refine ⟨i, old, rfl, hold, by simpa using hp, ?_⟩
    intro k x hk hx
    simpa using hfirst k x hk hx

theorem addjob_of_free {s : Shell} {p : Int} {i : Nat} (st : Int) (c : String) (hp : 1 ≤ p)
    (hi : findSlot (fun j => j.pid == 0) s.jobs = some i) :
    addjob s p st c = (1, { s with
      jobs := s.jobs.set i ⟨p, s.nextjid, st, c⟩
      nextjid := if int32 (s.nextjid + 1) > (MAXJOBS : Int) then 1 else int32 (s.nextjid + 1)
      out := s.out ++ verboseLine s.verbose s.nextjid p c }) := by
  have hnlt : ¬ p < 1 := by omega
  unfold addjob
  simp only [hnlt, if_false, hi, verboseLine]
  cases hv : s.verbose
  · simp [String.append_empty]
  · simp [Shell.print]

theorem builtin_cmd_external {os : Os} {s : Shell} {arg0 : String} (rest : List String)
    (hext : arg0 ≠ "quit" ∧ arg0 ≠ "jobs" ∧ arg0 ≠ "bg" ∧ arg0 ≠ "fg" ∧ arg0 ≠ "&") :
    builtin_cmd os (arg0 :: rest) s = none := by
  obtain ⟨h1, h2, h3, h4, h5⟩ := hext
  simp [builtin_cmd, h1, h2, h3, h4, h5]

theorem listjobsFrom_free (out : String) (i : Nat) (l : List job_t)
    (h : ∀ j ∈ l, j.pid = 0) : listjobsFrom out i l = out := by
  induction l generalizing i with
  | nil => rfl
  | cons a l ih =>
    have ha : a.pid = 0 := h a (List.mem_cons_self _ _)
    simp only [listjobsFrom, ha, bne_self_eq_false, Bool.false_eq_true, if_false]
    exact ih (i + 1) (fun j hj => h j (List.mem_cons_of_mem _ hj))

/-! ## The jobs listing -/

theorem listjobsFrom_cons_free (out : String) (i : Nat) (j : job_t) (js : List job_t)
    (h : j.pid = 0) : listjobsFrom out i (j :: js) = listjobsFrom out (i + 1) js := by
  simp only [listjobsFrom, h, bne_self_eq_false, Bool.false_eq_true, if_false]

theorem listjobsFrom_cons_live (out : String) (i : Nat) (j : job_t) (js : List job_t)
    (h : j.pid ≠ 0) (hst : j.state = FG ∨ j.state = BG ∨ j.state = ST) :
    listjobsFrom out i (j :: js) = listjobsFrom (out ++ jobLine j) (i + 1) js := by
  have hne : (j.pid != 0) = true := by simpa using h
  rcases hst with hs | hs | hs
  · have h1 : ¬ (FG = BG) := by decide
    simp only [listjobsFrom, hne, if_true, jobLine, stateWord, hs, h1, if_false,
      String.append_assoc]
  · simp only [listjobsFrom, hne, if_true, jobLine, stateWord, hs, String.append_assoc]
  · have h1 : ¬ (ST = BG) := by decide
    have h2 : ¬ (ST = FG) := by decide
    simp only [listjobsFrom, hne, if_true, jobLine, stateWord, hs, h1, h2, if_false,
      String.append_assoc]

theorem listjobsFrom_eq (out : String) (i : Nat) (l : List job_t)
    (h : ∀ j ∈ l, j.pid ≠ 0 → (j.state = FG ∨ j.state = BG ∨ j.state = ST)) :
    listjobsFrom out i l
      = out ++ concatLines ((l.filter (fun j => j.pid != 0)).map jobLine) := by
  induction l generalizing out i with
  | nil => simp [listjobsFrom, concatLines]
  | cons a l ih =>
    have hl : ∀ j ∈ l, j.pid ≠ 0 → (j.state = FG ∨ j.state = BG ∨ j.state = ST) :=
      fun j hj => h j (List.mem_cons_of_mem _ hj)
    by_cases ha : a.pid = 0
    · rw [listjobsFrom_cons_free out i a l ha, ih out (i + 1) hl]
      have : (a.pid != 0) = false := by simp [ha]
      simp only [List.filter_cons, this, Bool.false_eq_true, if_false]
    · rw [listjobsFrom_cons_live out i a l ha (h a (List.mem_cons_self _ _) ha),
        ih _ (i + 1) hl]
      have : (a.pid != 0) = true := by simpa using ha
      simp only [List.filter_cons, this, if_true, List.map_cons, concatLines,
        String.append_assoc]

/-- C12: for every shell whose live slots have state FG, BG or ST,
`listjobs` appends to stdout the concatenation, in slot order and over
exactly the slots with `pid != 0`, of the lines `[jid] (pid) <State> cmdline`,
with `Running` for BG, `Foreground` for FG and `Stopped` for ST, and changes
nothing else of the shell (the job list is not modified). -/
theorem listjobs_output (s : Shell)
    (h : ∀ j ∈ s.jobs, j.pid ≠ 0 → (j.state = FG ∨ j.state = BG ∨ j.state = ST)) :
    listjobs s = { s with
      out := s.out ++ concatLines ((s.jobs.filter (fun j => j.pid != 0)).map jobLine) }
    ∧ (∀ j : job_t, j.state = BG → jobLine j
        = "[" ++ toString j.jid ++ "] (" ++ toString j.pid ++ ") " ++ "Running " ++ j.cmdline)
    ∧ (∀ j : job_t, j.state = FG → jobLine j
        = "[" ++ toString j.jid ++ "] (" ++ toString j.pid ++ ") " ++ "Foreground " ++ j.cmdline)
    ∧ (∀ j : job_t, j.state = ST → jobLine j
        = "[" ++ toString j.jid ++ "] (" ++ toString j.pid ++ ") " ++ "Stopped " ++ j.cmdline) := by
  refine ⟨?_, ?_, ?_, ?_⟩
  · simp only [listjobs, listjobsFrom_eq s.out 0 s.jobs h]
  · intro j hs
    simp only [jobLine, stateWord, hs, if_true]
  · intro j hs
    have h1 : ¬ (FG = BG) := by decide
    simp only [jobLine, stateWord, hs, h1, if_false, if_true]
  · intro j hs
    have h1 : ¬ (ST = BG) := by decide
    have h2 : ¬ (ST = FG) := by decide
    simp only [jobLine, stateWord, hs, h1, h2, if_false]

/-- C12 witness: the listing of the two-job table. -/
theorem listjobs_output_witness :
    listjobs twoJobs = { twoJobs with
      out := twoJobs.out
        ++ concatLines ((twoJobs.jobs.filter (fun j => j.pid != 0)).map jobLine) }
    ∧ concatLines ((twoJobs.jobs.filter (fun j => j.pid != 0)).map jobLine)
        = "[1] (100) Foreground vi a.c\n[2] (101) Running sleep 9 &\n" :=
  ⟨(listjobs_output twoJobs (by decide)).1, by decide⟩

set_option maxRecDepth 100000 in
/-- C11 (counterexample): three background launches of child pid 300 from
the empty table that do not behave as claimed.  With the shell started with
`-v`, `sleep 5 &` does not print exactly `[1] (300) sleep 5 &`: `addjob` first
prints its diagnostic `Added job [1] 300 sleep 5 &`.  When the child has exited
before `eval` unblocks SIGCHLD, `sigchld_handler` deletes the job before the
`printf`, so `pid2jid` returns 0: the line is `[0] (300) sleep 5 &` and the
table holds no job.  For a command line of 129 tokens ending in `&`,
`parseline` writes past the end of `argv[MAXARGS]`. -/
theorem eval_bg_launch_counterexample :
    (eval osOk "sleep 5 &\n" (initShell true)
      ≠ .ret { initShell true with
          jobs := (initShell true).jobs.set 0 ⟨300, 1, BG, "sleep 5 &\n"⟩
          nextjid := 2
          out := "[1] (300) sleep 5 &\n" }
    ∧ eval osOk "sleep 5 &\n" (initShell true)
      = .ret { initShell true with
          jobs := (initShell true).jobs.set 0 ⟨300, 1, BG, "sleep 5 &\n"⟩
          nextjid := 2
          out := "Added job [1] 300 sleep 5 &\n\n[1] (300) sleep 5 &\n" })
    ∧ eval osEarlyExit "sleep 5 &\n" (initShell false)
      = .ret { initShell false with out := "[0] (300) sleep 5 &\n" }
    ∧ ((cmdTokens longLine).length = 129 ∧ (cmdTokens longLine).getLast? = some ['&']
      ∧ parseline longLine = none
      ∧ eval osOk longLine (initShell false) = .fault (initShell false)) := by
  refine ⟨by decide, by decide, ?_, ?_, ?_, ?_⟩
  · decide
  · decide
  · decide
  · decide

/-- C11 (amended): for a command line that `parseline` reports as a
background job (so it has fewer than MAXARGS = 128 tokens), whose first
argument is not a built-in command, with `fork` returning a child pid `p >= 1`
that no slot holds, a job table with a free slot, and no child reaped when
`eval` unblocks SIGCHLD (before its `printf`), `eval` returns (no `waitfg`)
after filling the lowest free slot with (p, old `nextjid`, BG, the command
line), every other slot unchanged and no `kill`; it prints
`[jid] (p) <command line>`, preceded by the diagnostic of `addjob` when the
shell runs with `-v`.  On the empty table with `nextjid = 1` the slot is slot
0, the printed id is 1, and a following `listjobs` prints
`[1] (p) Running <command line>`. -/
theorem eval_bg_launch (os : Os) (s : Shell) (cmdline arg0 : String) (rest : List String)
    (hparse : parseline cmdline = some (arg0 :: rest, true))
    (hext : arg0 ≠ "quit" ∧ arg0 ≠ "jobs" ∧ arg0 ≠ "bg" ∧ arg0 ≠ "fg" ∧ arg0 ≠ "&")
    (hp : 1 ≤ os.forkRet) (hfresh : ∀ j ∈ s.jobs, j.pid ≠ os.forkRet)
    (hfree : ∃ j ∈ s.jobs, j.pid = 0) (hquiet : os.reaped = []) :
    ∃ i old s1, s.jobs[i]? = some old ∧ old.pid = 0
      ∧ (∀ (k : Nat) (x : job_t), k < i → s.jobs[k]? = some x → x.pid ≠ 0)
      ∧ eval os cmdline s = .ret s1
      ∧ s1.jobs = s.jobs.set i ⟨os.forkRet, s.nextjid, BG, cmdline⟩
      ∧ s1.kills = s.kills
      ∧ s1.out = s.out ++ verboseLine s.verbose s.nextjid os.forkRet cmdline
          ++ ("[" ++ toString s.nextjid ++ "] (" ++ toString os.forkRet ++ ") " ++ cmdline)
      ∧ (s.jobs = initjobs zeroJobs → s.nextjid = 1 →
          i = 0 ∧ (listjobs s1).out
            = s1.out ++ ("[" ++ toString (1 : Int) ++ "] (" ++ toString os.forkRet ++ ") "
                ++ "Running " ++ cmdline)) := by
  obtain ⟨i, old, hi, hold, hold0, hfirst⟩ := findSlot_free_of_exists hfree
  have hlt := (List.getElem?_eq_some.mp hold).1
  have hadd := addjob_of_free (s := s) BG cmdline hp hi
  have hnew : (s.jobs.set i ⟨os.forkRet, s.nextjid, BG, cmdline⟩)[i]?
      = some ⟨os.forkRet, s.nextjid, BG, cmdline⟩ := by simp [hlt]
  have hjid : pid2jid (s.jobs.set i ⟨os.forkRet, s.nextjid, BG, cmdline⟩) os.forkRet
      = s.nextjid := by
    rw [pid2jid_of_first hp hnew rfl]
    intro k x hk hx
    rw [List.getElem?_set_ne (by omega)] at hx
    exact hfresh x (List.getElem?_mem hx)
  have h1 : ¬ os.forkRet < 0 := by omega
  have h2 : ¬ os.forkRet = 0 := by omega
  have hrun : eval os cmdline s = .ret { s with
      jobs := s.jobs.set i ⟨os.forkRet, s.nextjid, BG, cmdline⟩
      nextjid := if int32 (s.nextjid + 1) > (MAXJOBS : Int) then 1 else int32 (s.nextjid + 1)
      out := s.out ++ verboseLine s.verbose s.nextjid os.forkRet cmdline
        ++ ("[" ++ toString s.nextjid ++ "] (" ++ toString os.forkRet ++ ") " ++ cmdline) } := by
    simp only [eval, hparse, builtin_cmd_external rest hext, h1, h2, if_false, hadd,
      Bool.not_true, Bool.false_eq_true, Shell.print, hjid, hquiet, sigchld_handler]
  refine ⟨i, old, _, hold, hold0, hfirst, hrun, rfl, rfl, rfl, ?_⟩
  intro hinit hnext
  have hi0 : i = 0 := by
    rw [hinit] at hi
    have : findSlot (fun j => j.pid == 0) (initjobs zeroJobs) = some 0 := by decide
    rw [this] at hi
    exact (Option.some.inj hi).symm
  refine ⟨hi0, ?_⟩
  subst hi0
  have htail : ∀ j ∈ (initjobs zeroJobs).tail, j.pid = 0 := by decide
  have hcons : (initjobs zeroJobs).set 0 ⟨os.forkRet, 1, BG, cmdline⟩
      = ⟨os.forkRet, 1, BG, cmdline⟩ :: (initjobs zeroJobs).tail := rfl
  have hlist : listjobsFrom (s.out ++ verboseLine s.verbose s.nextjid os.forkRet cmdline
        ++ ("[" ++ toString s.nextjid ++ "] (" ++ toString os.forkRet ++ ") " ++ cmdline)) 0
        (s.jobs.set 0 ⟨os.forkRet, s.nextjid, BG, cmdline⟩)
      = (s.out ++ verboseLine s.verbose s.nextjid os.forkRet cmdline
        ++ ("[" ++ toString s.nextjid ++ "] (" ++ toString os.forkRet ++ ") " ++ cmdline))
        ++ jobLine ⟨os.forkRet, 1, BG, cmdline⟩ := by
    rw [hinit, hnext, hcons, listjobsFrom_cons_live _ _ _ _ h2 (Or.inr (Or.inl rfl)),
      listjobsFrom_free _ _ _ htail]
  have hline : jobLine ⟨os.forkRet, 1, BG, cmdline⟩
      = "[" ++ toString (1 : Int) ++ "] (" ++ toString os.forkRet ++ ") " ++ "Running "
        ++ cmdline := by
    simp only [jobLine, stateWord, if_true]
  rw [← hline]
  exact hlist

/-- C11 witness: `sleep 5 &` on the empty table, child pid 300. -/
theorem eval_bg_launch_witness :
    ∃ i old s1, (initShell false).jobs[i]? = some old ∧ old.pid = 0
      ∧ (∀ (k : Nat) (x : job_t), k < i → (initShell false).jobs[k]? = some x → x.pid ≠ 0)
      ∧ eval osOk "sleep 5 &\n" (initShell false) = .ret s1
      ∧ s1.jobs = (initShell false).jobs.set i ⟨300, 1, BG, "sleep 5 &\n"⟩
      ∧ s1.kills = []
      ∧ s1.out = "" ++ verboseLine false 1 300 "sleep 5 &\n"
          ++ ("[" ++ toString (1 : Int) ++ "] (" ++ toString (300 : Int) ++ ") " ++ "sleep 5 &\n")
      ∧ ((initShell false).jobs = initjobs zeroJobs → (initShell false).nextjid = 1 →
          i = 0 ∧ (listjobs s1).out
            = s1.out ++ ("[" ++ toString (1 : Int) ++ "] (" ++ toString (300 : Int) ++ ") "
                ++ "Running " ++ "sleep 5 &\n")) :=
  eval_bg_launch osOk (initShell false) "sleep 5 &\n" "sleep" ["5"] (by decide) (by decide)
    (by decide) (by decide) (by decide) (by decide)

/-! ## The SIGINT and SIGTSTP handlers -/

theorem fgpid_of_none {l : List job_t} (h : ∀ j ∈ l, j.state ≠ FG) : fgpid l = 0 := by
  unfold fgpid
  have : l.find? (fun j => j.state == FG) = none := by
    rw [List.find?_eq_none]
    intro x hx
    simpa using h x hx
  rw [this]

theorem fgpid_of_some {l : List job_t} (h : ∃ j ∈ l, j.state = FG) :
    ∃ j ∈ l, j.state = FG ∧ fgpid l = j.pid := by
  unfold fgpid
  cases hf : l.find? (fun j => j.state == FG) with
  | none =>
    rw [List.find?_eq_none] at hf
    obtain ⟨j, hj, hst⟩ := h
    exact absurd (by simpa using hst) (hf j hj)
  | some j =>
    exact ⟨j, List.mem_of_find?_eq_some hf, by simpa using List.find?_some hf, rfl⟩

/-- C15 (code for every input): in the child (`fork` returned 0) of an
external command, when `execve` returns a negative value the child prints
`<argv[0]>: Command not found` and calls `exit(0)`, the success status, without
touching the job list; it does not return into the rest of `eval`.  For
`./nope` from the empty table: the exit status is 0, not a non-zero status. -/
theorem eval_child_exec_fails (os : Os) (s : Shell) (cmdline arg0 : String)
    (rest : List String) (bg : Bool) :
    (parseline cmdline = some (arg0 :: rest, bg) →
      (arg0 ≠ "quit" ∧ arg0 ≠ "jobs" ∧ arg0 ≠ "bg" ∧ arg0 ≠ "fg" ∧ arg0 ≠ "&") →
      os.forkRet = 0 → os.execveRet < 0 →
      eval os cmdline s = .exit 0 { s with out := s.out ++ (arg0 ++ ": Command not found\n") })
    ∧ eval osChildFail "./nope\n" (initShell false)
        = .exit 0 { initShell false with out := "./nope: Command not found\n" }
    ∧ ¬ ∃ code s1, code ≠ 0 ∧ eval osChildFail "./nope\n" (initShell false) = .exit code s1 := by
  refine ⟨?_, by decide, ?_⟩
  · intro hparse hext hfork hexec
    have h1 : ¬ os.forkRet < 0 := by omega
    simp only [eval, hparse, builtin_cmd_external rest hext, h1, hfork, hexec, if_false,
      if_true, Shell.print]
    simp
  · rintro ⟨code, s1, hne, h⟩
    have h0 : eval osChildFail "./nope\n" (initShell false)
        = .exit 0 { initShell false with out := "./nope: Command not found\n" } := by decide
    rw [h0] at h
    cases h
    exact hne rfl

/-! ## The command line -/

theorem strchr_lt {buf : List Char} {c : Char} {d : Nat} (h : strchr buf c = some d) :
    d < buf.length := by
  induction buf generalizing d with
  | nil => simp [strchr] at h
  | cons b bs ih =>
    by_cases hb : b = c
    · simp [strchr, hb] at h
      subst h
      simp
    · simp [strchr, hb] at h
      obtain ⟨d1, hd1, rfl⟩ := h
      have := ih hd1
      simp
      omega

theorem skipSpaces_length_le (buf : List Char) : (skipSpaces buf).length ≤ buf.length := by
  unfold skipSpaces
  induction buf with
  | nil => simp
  | cons b bs ih =>
    simp only [List.dropWhile]
    split
    · simp only [List.length_cons]; omega
    · exact le_refl _

theorem nextDelim_length_le (buf0 : List Char) : (nextDelim buf0).1.length ≤ buf0.length := by
  unfold nextDelim
  split
  · simp
  · exact le_refl _

theorem nextDelim_lt {buf0 buf : List Char} {d : Nat} (h : nextDelim buf0 = (buf, some d)) :
    d < buf.length := by
  unfold nextDelim at h
  split at h
  · simp only [Prod.mk.injEq] at h
    obtain ⟨h1, h2⟩ := h
    rw [← h1]
    exact strchr_lt h2
  · simp only [Prod.mk.injEq] at h
    obtain ⟨h1, h2⟩ := h
    rw [← h1]
    exact strchr_lt h2

theorem parseArgs_fuel_succ (fuel : Nat) :
    ∀ buf : List Char, buf.length < fuel → parseArgs (fuel + 1) buf = parseArgs fuel buf := by
  induction fuel with
  | zero => intro buf h; omega
  | succ fuel ih =>
    intro buf0 h0
    rw [parseArgs, parseArgs]
    cases hn : nextDelim buf0 with
    | mk buf delim =>
      cases delim with
      | none => rfl
      | some d =>
        simp only []
        have h1 := nextDelim_lt hn
        have h2 : buf.length ≤ buf0.length := by
          have := nextDelim_length_le buf0
          rw [hn] at this
          exact this
        have h3 := skipSpaces_length_le (buf.drop (d + 1))
        have h4 : (buf.drop (d + 1)).length = buf.length - (d + 1) := by simp
        rw [ih _ (by omega)]

theorem parseArgs_fuel (buf : List Char) (extra : Nat) :
    parseArgs (buf.length + 1 + extra) buf = parseArgs (buf.length + 1) buf := by
  induction extra with
  | zero => rfl
  | succ n ih =>
    rw [← ih]
    exact parseArgs_fuel_succ (buf.length + 1 + n) buf (by omega)

theorem parseArgs_fuel_ge (buf : List Char) (fuel : Nat) (h : buf.length + 1 ≤ fuel) :
    parseArgs fuel buf = parseArgs (buf.length + 1) buf := by
  have := parseArgs_fuel buf (fuel - (buf.length + 1))
  rw [show buf.length + 1 + (fuel - (buf.length + 1)) = fuel by omega] at this
  exact this

theorem parseline_eq (cmdline : String) :
    parseline cmdline
      = if (cmdTokens cmdline).length < MAXARGS then
          match (cmdTokens cmdline).getLast? with
          | none => some ([], true)
          | some last =>
            if firstChar last = '&' then
              some (((cmdTokens cmdline).dropLast).map String.mk, true)
            else some ((cmdTokens cmdline).map String.mk, false)
        else none := rfl

/-- C17 (counterexample): the last token of `sleep 5 &x` is `&x`, not the
token `&`, yet `parseline` reports a background job and drops that token. -/
theorem parseline_background_counterexample :
    cmdTokens "sleep 5 &x\n" = ["sleep".toList, "5".toList, "&x".toList]
    ∧ "&x".toList ≠ "&".toList
    ∧ parseline "sleep 5 &x\n" = some (["sleep", "5"], true) := by
  decide

/-- C17 (amended): for every newline-terminated command line whose tokens
are `toks` followed by `last` (fewer than MAXARGS of them), `parseline` reports
background = true exactly when the first character of the last token is `&`;
in that case argv is the token list without the last token (in particular
when the last token is the token `&`), and otherwise argv is the full token
list.  The loop that finds the tokens gives the same list with any larger
fuel. -/
theorem parseline_background (cmdline : String) (toks : List (List Char)) (last : List Char)
    (_hnl : cmdline.toList.getLast? = some '\n')
    (htok : cmdTokens cmdline = toks ++ [last])
    (hargs : (toks ++ [last]).length < MAXARGS) :
    ((parseline cmdline).map Prod.snd = some true ↔ firstChar last = '&')
    ∧ (firstChar last = '&' → parseline cmdline = some (toks.map String.mk, true))
    ∧ (firstChar last ≠ '&' →
        parseline cmdline = some ((toks ++ [last]).map String.mk, false))
    ∧ (last = ['&'] → parseline cmdline = some (toks.map String.mk, true))
    ∧ (∀ fuel, (cmdline.toList.dropLast ++ [' ']).length + 1 ≤ fuel →
        parseArgs fuel (skipSpaces (cmdline.toList.dropLast ++ [' '])) = toks ++ [last]) := by
  have hyes : firstChar last = '&' → parseline cmdline = some (toks.map String.mk, true) := by
    intro h
    rw [parseline_eq, htok, List.getLast?_concat]
    simp only [hargs, h, if_true, List.dropLast_concat]
  have hno : firstChar last ≠ '&' →
      parseline cmdline = some ((toks ++ [last]).map String.mk, false) := by
    intro h
    rw [parseline_eq, htok, List.getLast?_concat]
    simp only [hargs, h, if_true, if_false]
  refine ⟨?_, hyes, hno, ?_, ?_⟩
  · by_cases h : firstChar last = '&'
    · simp [hyes h, h]
    · simp [hno h, h]
  · intro h
    exact hyes (by rw [h]; rfl)
  · intro fuel hfuel
    have hle := skipSpaces_length_le (cmdline.toList.dropLast ++ [' '])
    rw [parseArgs_fuel_ge _ fuel (by omega), ← htok]
    unfold cmdTokens
    rw [parseArgs_fuel_ge _ ((cmdline.toList.dropLast ++ [' ']).length + 1) (by omega)]

/-- C17 witness: `sleep 5 &`. -/
theorem parseline_background_witness :
    parseline "sleep 5 &\n" = some (["sleep".toList, "5".toList].map String.mk, true) :=
  (parseline_background "sleep 5 &\n" ["sleep".toList, "5".toList] "&".toList
    (by decide) (by decide) (by decide)).2.2.2.1 (by decide)

/-- C18 (counterexample): a line that consists of a tab before its newline
is white space only, yet `parseline` returns the argument list with the one
argument `\t` and `eval` launches it as a foreground job (child pid 300). -/
theorem eval_blank_counterexample :
    ("\t".toList.all isspace) = true
    ∧ parseline "\t\n" = some (["\t"], false)
    ∧ eval osOk "\t\n" (initShell false)
        = .waitfg 300 { initShell false with
            jobs := (initShell false).jobs.set 0 ⟨300, 1, FG, "\t\n"⟩
            nextjid := 2 } := by
  decide

theorem skipSpaces_replicate (n : Nat) : skipSpaces (List.replicate n ' ') = [] := by
  unfold skipSpaces
  induction n with
  | zero => rfl
  | succ n ih => simp [List.replicate_succ, List.dropWhile, ih]

/-- C18 (amended): for every input line that consists only of space
characters (none, or any number) before its newline, `parseline` returns an
empty argv and `eval` is a no-op: it returns with the shell unchanged (no
process launched, nothing printed, job table unchanged). -/
theorem eval_blank (os : Os) (s : Shell) (n : Nat) :
    parseline (String.mk (List.replicate n ' ' ++ ['\n'])) = some ([], true)
    ∧ eval os (String.mk (List.replicate n ' ' ++ ['\n'])) s = .ret s := by
  have hbuf : (String.mk (List.replicate n ' ' ++ ['\n'])).toList.dropLast ++ [' ']
      = List.replicate (n + 1) ' ' := by
    show (List.replicate n ' ' ++ ['\n']).dropLast ++ [' '] = List.replicate (n + 1) ' '
    rw [List.dropLast_concat, List.replicate_succ']
  have htok : cmdTokens (String.mk (List.replicate n ' ' ++ ['\n'])) = [] := by
    unfold cmdTokens
    rw [hbuf, skipSpaces_replicate]
    rfl
  have hparse : parseline (String.mk (List.replicate n ' ' ++ ['\n'])) = some ([], true) := by
    rw [parseline_eq, htok]
    rfl
  refine ⟨hparse, ?_⟩
  simp only [eval, hparse]

/-- C18 witness: a line of three spaces on the two-job table. -/
theorem eval_blank_witness :
    eval osOk (String.mk (List.replicate 3 ' ' ++ ['\n'])) twoJobs = .ret twoJobs :=
  (eval_blank osOk twoJobs 3).2

/-! ## Adding and deleting a job -/

theorem addjob_cases (s : Shell) (p st : Int) (c : String) :
    ((addjob s p st c).1 = 0 ∧ (addjob s p st c).2.jobs = s.jobs
      ∧ (addjob s p st c).2.nextjid = s.nextjid)
    ∨ (1 ≤ p ∧ ∃ i, findSlot (fun j => j.pid == 0) s.jobs = some i
      ∧ addjob s p st c = (1, { s with
          jobs := s.jobs.set i ⟨p, s.nextjid, st, c⟩
          nextjid := if int32 (s.nextjid + 1) > (MAXJOBS : Int) then 1
            else int32 (s.nextjid + 1)
          out := s.out ++ verboseLine s.verbose s.nextjid p c })) := by
  by_cases hp : p < 1
  · left
    simp [addjob, hp]
  · cases hf : findSlot (fun j => j.pid == 0) s.jobs with
    | none =>
      left
      simp [addjob, hp, hf, Shell.print]
    | some i =>
      right
      exact ⟨by omega, i, rfl, addjob_of_free st c (by omega) hf⟩

theorem deletejob_cases (s : Shell) (p : Int) :
    deletejob s p = (0, s)
    ∨ (1 ≤ p ∧ ∃ i, findSlot (fun j => j.pid == p) s.jobs = some i
      ∧ deletejob s p = (1, { s with
          jobs := s.jobs.modify clearjob i
          nextjid := int32 (maxjid (s.jobs.modify clearjob i) + 1) })) := by
  by_cases hp : p < 1
  · left
    simp [deletejob, hp]
  · cases hf : findSlot (fun j => j.pid == p) s.jobs with
    | none =>
      left
      simp [deletejob, hp, hf]
    | some i =>
      right
      refine ⟨by omega, i, rfl, ?_⟩
      simp [deletejob, hp, hf]

theorem maxjid_modify_clearjob_le (l : List job_t) (i : Nat) :
    maxjid (l.modify clearjob i) ≤ maxjid l := by
  rcases maxjid_attained (l.modify clearjob i) with h0 | ⟨j, hj, hje⟩
  · rw [h0]
    exact maxjid_nonneg l
  · rw [← hje]
    rcases mem_modify_clearjob hj with hj | hj
    · exact le_maxjid hj
    · rw [hj]
      exact maxjid_nonneg l

theorem nextjid_after_addjob {n : Int} (h1 : 1 ≤ n) (h2 : n < INT_MAX) :
    1 ≤ (if int32 (n + 1) > (MAXJOBS : Int) then 1 else int32 (n + 1))
    ∧ (if int32 (n + 1) > (MAXJOBS : Int) then 1 else int32 (n + 1)) ≤ (MAXJOBS : Int) := by
  have h3 : int32 (n + 1) = n + 1 := by
    apply int32_of_range <;> (unfold INT_MAX at h2; omega)
  rw [h3]
  have hm : ((MAXJOBS : Nat) : Int) = 16 := rfl
  rw [hm]
  split <;> omega

theorem nextjid_after_deletejob (l : List job_t) (i : Nat) (h : maxjid l < INT_MAX) :
    int32 (maxjid (l.modify clearjob i) + 1) = maxjid (l.modify clearjob i) + 1 := by
  have h1 := maxjid_modify_clearjob_le l i
  have h2 := maxjid_nonneg (l.modify clearjob i)
  apply int32_of_range <;> (unfold INT_MAX at h; omega)

theorem resolveTarget_error_print {argv0 arg : String} {s s1 : Shell}
    (h : resolveTarget argv0 arg s = .error s1) : ∃ t, s1 = s.print t := by
  unfold resolveTarget at h
  split at h
  · simp only [] at h
    split at h
    · cases h; exact ⟨_, rfl⟩
    · cases h
  · split at h
    · simp only [] at h
      split at h
      · cases h; exact ⟨_, rfl⟩
      · cases h
    · cases h; exact ⟨_, rfl⟩

theorem do_bgfg_sh (os : Os) (argv : List String) (s : Shell) :
    (do_bgfg os argv s).sh.nextjid = s.nextjid
    ∧ ((do_bgfg os argv s).sh.jobs = s.jobs
      ∨ ∃ i J st, bgfgTarget argv s = some i ∧ s.jobs[i]? = some J
          ∧ (1 ≤ J.jid ∨ 1 ≤ J.pid) ∧ (st = BG ∨ st = FG)
          ∧ (do_bgfg os argv s).sh.jobs = s.jobs.set i { J with state := st }) := by
  unfold do_bgfg bgfgTarget
  cases ha : argv.tail.head? with
  | none => exact ⟨rfl, Or.inl rfl⟩
  | some arg =>
    simp only []
    cases hr : resolveTarget (argv.headD "") arg s with
    | error s1 =>
      obtain ⟨t, rfl⟩ := resolveTarget_error_print hr
      exact ⟨rfl, Or.inl rfl⟩
    | ok r =>
      obtain ⟨i, pid⟩ := r
      obtain ⟨J, hJ, _, hpos⟩ := resolveTarget_ok_inv hr
      simp only []
      by_cases hk : os.killRet < 0
      · simp only [hk, if_true]
        exact ⟨rfl, Or.inl rfl⟩
      · simp only [hk, if_false]
        by_cases hb : argv.headD "" = "bg"
        · simp only [hb, if_true]
          refine ⟨rfl, Or.inr ⟨i, J, BG, rfl, hJ, hpos, Or.inl rfl, ?_⟩⟩
          simp only [Outcome.sh, Shell.print, Shell.setState, Shell.kill, modify_eq_set _ hJ]
        · simp only [hb, if_false]
          refine ⟨rfl, Or.inr ⟨i, J, FG, rfl, hJ, hpos, Or.inr rfl, ?_⟩⟩
          simp only [Outcome.sh, Shell.setState, Shell.kill, modify_eq_set _ hJ]

theorem applyTableOp_bgfg {os : Os} {argv : List String} {s s1 : Shell}
    (h : applyTableOp s (.bgfg os argv) = some s1) : s1 = (do_bgfg os argv s).sh := by
  simp only [applyTableOp] at h
  cases hd : do_bgfg os argv s with
  | ret s2 => rw [hd] at h; simp only [Option.some.injEq] at h; rw [← h]; rfl
  | waitfg pid s2 => rw [hd] at h; simp only [Option.some.injEq] at h; rw [← h]; rfl
  | exit code s2 => rw [hd] at h; cases h
  | exec a s2 => rw [hd] at h; cases h
  | fault s2 => rw [hd] at h; cases h

theorem applyTableOp_reap {p : Int} {status : Status} {s s1 : Shell}
    (h : applyTableOp s (.reap p status) = some s1) :
    s1 = s
    ∨ (∃ t, s1 = (deletejob (s.print t) p).2)
    ∨ (∃ i t, getjobpid s.jobs p = some i ∧ s1 = (s.setState i ST).print t) := by
  simp only [applyTableOp, sigchld_handler] at h
  by_cases hp : p > 0
  · simp only [hp, if_true] at h
    cases status with
    | exited code =>
      simp only [reap, Option.some.injEq] at h
      right; left
      refine ⟨"", ?_⟩
      rw [← h]
      have : s.print "" = s := by simp [Shell.print]
      rw [this]
    | signaled sig =>
      simp only [reap, Option.some.injEq] at h
      right; left
      exact ⟨_, h.symm⟩
    | stopped sig =>
      simp only [reap] at h
      cases hg : getjobpid s.jobs p with
      | none => rw [hg] at h; cases h
      | some i =>
        rw [hg] at h
        simp only [Option.some.injEq] at h
        right; right
        exact ⟨i, _, rfl, h.symm⟩
  · simp only [hp, if_false, Option.some.injEq] at h
    exact Or.inl h.symm

/-! ## The invariant of the job table -/

theorem slotOk_clearjob (j : job_t) : SlotOk (clearjob j) :=
  Or.inl ⟨rfl, rfl, rfl⟩

theorem slotOk_modify_clearjob {l : List job_t} (i : Nat) (h : ∀ j ∈ l, SlotOk j) :
    ∀ j ∈ l.modify clearjob i, SlotOk j := by
  intro j hj
  rcases mem_modify_clearjob hj with hj | hj
  · exact h j hj
  · rw [hj]; exact slotOk_clearjob j

theorem slotOk_set {l : List job_t} (i : Nat) {x : job_t} (h : ∀ j ∈ l, SlotOk j)
    (hx : SlotOk x) : ∀ j ∈ l.set i x, SlotOk j := by
  intro j hj
  rcases List.mem_or_eq_of_mem_set hj with hj | rfl
  · exact h j hj
  · exact hx

theorem slotOk_restate {J : job_t} {st : Int} (hJ : SlotOk J) (hpos : 1 ≤ J.jid ∨ 1 ≤ J.pid)
    (hst : st ≠ UNDEF) : SlotOk { J with state := st } := by
  rcases hJ with ⟨h1, h2, _⟩ | ⟨h1, h2, _⟩
  · rcases hpos with h | h <;> omega
  · exact Or.inr ⟨h1, h2, hst⟩

theorem tableInv_applyTableOp {s s1 : Shell} {op : TableOp}
    (hinv : (∀ j ∈ s.jobs, SlotOk j) ∧ 1 ≤ s.nextjid)
    (hused : op.wellUsed s = true) (happ : applyTableOp s op = some s1) :
    (∀ j ∈ s1.jobs, SlotOk j) ∧ 1 ≤ s1.nextjid := by
  have hdel : ∀ (t : String) (p : Int), maxjid s.jobs < INT_MAX →
      (∀ j ∈ (deletejob (s.print t) p).2.jobs, SlotOk j)
      ∧ 1 ≤ (deletejob (s.print t) p).2.nextjid := by
    intro t p hmax
    rcases deletejob_cases (s.print t) p with heq | ⟨_, i, _, heq⟩
    · rw [heq]; exact hinv
    · rw [heq]
      have h3 := nextjid_after_deletejob s.jobs i hmax
      have h2 := maxjid_nonneg (s.jobs.modify clearjob i)
      refine ⟨slotOk_modify_clearjob i hinv.1, ?_⟩
      show 1 ≤ int32 (maxjid (s.jobs.modify clearjob i) + 1)
      rw [h3]; omega
  cases op with
  | addjob p st c =>
    simp only [TableOp.wellUsed, decide_eq_true_eq] at hused
    simp only [applyTableOp, Option.some.injEq] at happ
    subst happ
    rcases addjob_cases s p st c with ⟨_, hj, hn⟩ | ⟨hp, i, _, heq⟩
    · rw [hj, hn]; exact hinv
    · rw [heq]
      refine ⟨slotOk_set i hinv.1 (Or.inr ⟨?_, hinv.2, ?_⟩),
        (nextjid_after_addjob hinv.2 hused.2).1⟩
      · show p ≠ 0
        omega
      · show st ≠ UNDEF
        rcases hused.1 with h | h | h <;> rw [h] <;> decide
  | deletejob p =>
    simp only [TableOp.wellUsed, decide_eq_true_eq] at hused
    simp only [applyTableOp, Option.some.injEq] at happ
    subst happ
    have := hdel "" p hused
    have hs : s.print "" = s := by simp [Shell.print]
    rw [hs] at this
    exact this
  | bgfg os argv =>
    rw [applyTableOp_bgfg happ]
    obtain ⟨hn, hj | ⟨i, J, st, _, hJ, hpos, hst, hj⟩⟩ := do_bgfg_sh os argv s
    · rw [hj, hn]; exact hinv
    · rw [hj, hn]
      refine ⟨slotOk_set i hinv.1
        (slotOk_restate (hinv.1 J (List.getElem?_mem hJ)) hpos ?_), hinv.2⟩
      rcases hst with h | h <;> rw [h] <;> decide
  | reap p status =>
    simp only [TableOp.wellUsed, decide_eq_true_eq] at hused
    rcases applyTableOp_reap happ with rfl | ⟨t, rfl⟩ | ⟨i, t, hg, rfl⟩
    · exact hinv
    · exact hdel t p hused
    · obtain ⟨hp, J, hJ, hJp, _⟩ := getjobpid_some hg
      refine ⟨?_, hinv.2⟩
      show ∀ j ∈ s.jobs.modify (fun j => { j with state := ST }) i, SlotOk j
      rw [modify_eq_set _ hJ]
      exact slotOk_set i hinv.1
        (slotOk_restate (hinv.1 J (List.getElem?_mem hJ)) (Or.inr (by omega)) (by decide))

theorem tableInv_runTableOps (ops : List TableOp) :
    ∀ s s1 : Shell, ((∀ j ∈ s.jobs, SlotOk j) ∧ 1 ≤ s.nextjid) →
      wellUsedRun s ops = true → runTableOps s ops = some s1 →
      (∀ j ∈ s1.jobs, SlotOk j) ∧ 1 ≤ s1.nextjid := by
  induction ops with
  | nil =>
    intro s s1 hinv _ hrun
    simp only [runTableOps, Option.some.injEq] at hrun
    subst hrun
    exact hinv
  | cons op ops ih =>
    intro s s1 hinv hused hrun
    simp only [wellUsedRun, Bool.and_eq_true] at hused
    simp only [runTableOps] at hrun
    cases happ : applyTableOp s op with
    | none => rw [happ] at hrun; cases hrun
    | some s2 =>
      rw [happ] at hrun
      have h2 := hused.2
      rw [happ] at h2
      exact ih s2 s1 (tableInv_applyTableOp hinv hused.1 happ) h2 hrun

theorem tableInv_init (verbose : Bool) :
    (∀ j ∈ (initShell verbose).jobs, SlotOk j) ∧ 1 ≤ (initShell verbose).nextjid := by
  refine ⟨?_, by simp [initShell]⟩
  intro x hx
  simp only [initShell, initjobs, List.mem_map] at hx
  obtain ⟨y, _, rfl⟩ := hx
  exact slotOk_clearjob y

/-- C19: in every job table reached from `initjobs` by `addjob` (with a state
among FG, BG, ST), `deletejob`, `do_bgfg` and the reaper's updates (the `int`
arithmetic being defined), each slot satisfies `pid = 0` iff `jid = 0` iff
`state = UNDEF`, every live slot has a job id of at least 1, and `nextjid` is
at least 1; consequently `fgpid` returns a non-zero pid exactly when some live
job is in state FG. -/
theorem table_invariant (verbose : Bool) (ops : List TableOp) (s : Shell)
    (hused : wellUsedRun (initShell verbose) ops = true)
    (hrun : runTableOps (initShell verbose) ops = some s) :
    (∀ j ∈ s.jobs, (j.pid = 0 ↔ j.jid = 0) ∧ (j.jid = 0 ↔ j.state = UNDEF)
        ∧ (j.pid ≠ 0 → 1 ≤ j.jid))
    ∧ 1 ≤ s.nextjid
    ∧ (fgpid s.jobs ≠ 0 ↔ ∃ j ∈ s.jobs, j.pid ≠ 0 ∧ j.state = FG) := by
  obtain ⟨hslots, hnext⟩ :=
    tableInv_runTableOps ops (initShell verbose) s (tableInv_init verbose) hused hrun
  refine ⟨?_, hnext, ?_⟩
  · intro j hj
    rcases hslots j hj with ⟨h1, h2, h3⟩ | ⟨h1, h2, h3⟩
    · exact ⟨⟨fun _ => h2, fun _ => h1⟩, ⟨fun _ => h3, fun _ => h2⟩, fun h => absurd h1 h⟩
    · exact ⟨⟨fun h => absurd h h1, fun h => by omega⟩,
        ⟨fun h => by omega, fun h => absurd h h3⟩, fun _ => h2⟩
  · constructor
    · intro hfg
      by_cases hex : ∃ j ∈ s.jobs, j.state = FG
      · obtain ⟨j, hj, hst, hpid⟩ := fgpid_of_some hex
        exact ⟨j, hj, by rw [← hpid]; exact hfg, hst⟩
      · have : ∀ j ∈ s.jobs, j.state ≠ FG := fun j hj hst => hex ⟨j, hj, hst⟩
        exact absurd (fgpid_of_none this) hfg
    · rintro ⟨j, hj, _, hst⟩
      obtain ⟨k, hk, hkst, hpid⟩ := fgpid_of_some ⟨j, hj, hst⟩
      rw [hpid]
      rcases hslots k hk with ⟨_, _, h3⟩ | ⟨h1, _, _⟩
      · rw [hkst] at h3
        exact absurd h3 (by decide)
      · exact h1

/-- C19 witness: the table after the sample session. -/
theorem table_invariant_witness :
    (∀ j ∈ sampleShell.jobs, (j.pid = 0 ↔ j.jid = 0) ∧ (j.jid = 0 ↔ j.state = UNDEF)
        ∧ (j.pid ≠ 0 → 1 ≤ j.jid))
    ∧ 1 ≤ sampleShell.nextjid
    ∧ (fgpid sampleShell.jobs ≠ 0 ↔ ∃ j ∈ sampleShell.jobs, j.pid ≠ 0 ∧ j.state = FG) :=
  table_invariant false sampleOps sampleShell (by decide) (by decide)

/-! ## A background job nobody touches -/

theorem listjobsFrom_out (out : String) (k : Nat) (l : List job_t) :
    listjobsFrom out k l = out ++ listingText k l := by
  unfold listingText
  induction l generalizing out k with
  | nil => simp [listjobsFrom]
  | cons a l ih =>
    have aux : ∀ x y : String, x = out ++ y →
        listjobsFrom x (k + 1) l = out ++ listjobsFrom y (k + 1) l := by
      intro x y hxy
      rw [ih x, ih y, hxy, String.append_assoc]
    have hfb : ¬ (FG = BG) := by decide
    have hsb : ¬ (ST = BG) := by decide
    have hsf : ¬ (ST = FG) := by decide
    by_cases ha : (a.pid != 0) = true
    · simp only [listjobsFrom, ha, if_true]
      apply aux
      by_cases h1 : a.state = BG
      · simp only [h1, if_true, String.append_assoc, String.empty_append]
      · by_cases h2 : a.state = FG
        · simp only [h2, hfb, if_true, if_false, String.append_assoc, String.empty_append]
        · by_cases h3 : a.state = ST
          · simp only [h3, hsb, hsf, if_false, if_true, String.append_assoc,
              String.empty_append]
          · simp only [h1, h2, h3, if_false, String.append_assoc, String.empty_append]
    · simp only [listjobsFrom, ha, if_false, Bool.false_eq_true]
      exact ih out (k + 1)

theorem listjobsFrom_cons (out : String) (k : Nat) (a : job_t) (l : List job_t) :
    listjobsFrom out k (a :: l) = listjobsFrom (listjobsFrom out k [a]) (k + 1) l := by
  by_cases ha : (a.pid != 0) = true
  · simp only [listjobsFrom, ha, if_true]
  · simp only [listjobsFrom, ha, if_false, Bool.false_eq_true]

theorem listjobsFrom_append (out : String) (k : Nat) (l1 l2 : List job_t) :
    listjobsFrom out k (l1 ++ l2) = listjobsFrom (listjobsFrom out k l1) (k + l1.length) l2 := by
  induction l1 generalizing out k with
  | nil => simp [listjobsFrom]
  | cons a l ih =>
    have hk : k + (l.length + 1) = k + 1 + l.length := by omega
    rw [List.cons_append, listjobsFrom_cons out k a (l ++ l2), ih,
      listjobsFrom_cons out k a l, List.length_cons, hk]

theorem listjobs_line {s : Shell} {i : Nat} {j : job_t} (hj : s.jobs[i]? = some j)
    (hp : j.pid ≠ 0) (hst : j.state = BG) :
    (listjobs s).out
      = s.out ++ listingText 0 (s.jobs.take i)
        ++ ("[" ++ toString j.jid ++ "] (" ++ toString j.pid ++ ") " ++ "Running " ++ j.cmdline)
        ++ listingText (i + 1) (s.jobs.drop (i + 1)) := by
  have hlt := (List.getElem?_eq_some.mp hj).1
  have hsplit : s.jobs = s.jobs.take i ++ j :: s.jobs.drop (i + 1) := by
    have hget : s.jobs[i] = j := (List.getElem?_eq_some.mp hj).2
    rw [← hget, ← List.drop_eq_getElem_cons hlt, List.take_append_drop]
  have hlen : (s.jobs.take i).length = i := by
    rw [List.length_take]; omega
  have hline : jobLine j
      = "[" ++ toString j.jid ++ "] (" ++ toString j.pid ++ ") " ++ "Running " ++ j.cmdline := by
    simp only [jobLine, stateWord, hst, if_true]
  show listjobsFrom s.out 0 s.jobs = _
  conv_lhs => rw [hsplit]
  rw [listjobsFrom_append, hlen, Nat.zero_add,
    listjobsFrom_cons_live _ _ _ _ hp (Or.inr (Or.inl hst)), listjobsFrom_out,
    listjobsFrom_out s.out, hline]

theorem frame_deletejob {s : Shell} {p q : Int} {i : Nat} {j : job_t}
    (hj : s.jobs[i]? = some j) (hp : j.pid = p) (hq : q ≠ p) :
    (deletejob s q).2.jobs[i]? = some j := by
  rcases deletejob_cases s q with heq | ⟨_, k, hk, heq⟩
  · rw [heq]; exact hj
  · rw [heq]
    obtain ⟨x, hx, hxq, _⟩ := findSlot_eq_some hk
    have hki : k ≠ i := by
      intro hki
      subst hki
      rw [hj] at hx
      cases hx
      exact hq (by rw [← hp]; exact (by simpa using hxq : j.pid = q).symm)
    show (s.jobs.modify clearjob k)[i]? = some j
    rw [List.getElem?_modify_ne _ _ hki]
    exact hj

theorem frame_applyTableOp {s s1 : Shell} {op : TableOp} {p : Int} {i : Nat} {j : job_t}
    (hj : s.jobs[i]? = some j) (hp : j.pid = p) (hp0 : p ≠ 0)
    (havoid : op.avoids p i s = true) (happ : applyTableOp s op = some s1) :
    s1.jobs[i]? = some j := by
  cases op with
  | addjob q st c =>
    simp only [applyTableOp, Option.some.injEq] at happ
    subst happ
    rcases addjob_jobs s q st c with hsame | ⟨_, k, hk, hset⟩
    · rw [hsame]; exact hj
    · rw [hset]
      obtain ⟨x, hx, hx0, _⟩ := findSlot_eq_some hk
      have hki : k ≠ i := by
        intro hki
        subst hki
        rw [hj] at hx
        cases hx
        exact hp0 (by rw [← hp]; simpa using hx0)
      rw [List.getElem?_set_ne hki]
      exact hj
  | deletejob q =>
    simp only [TableOp.avoids, decide_eq_true_eq] at havoid
    simp only [applyTableOp, Option.some.injEq] at happ
    subst happ
    exact frame_deletejob hj hp havoid
  | bgfg os argv =>
    simp only [TableOp.avoids, decide_eq_true_eq] at havoid
    rw [applyTableOp_bgfg happ]
    obtain ⟨_, hsame | ⟨k, J, st, hk, _, _, _, hset⟩⟩ := do_bgfg_sh os argv s
    · rw [hsame]; exact hj
    · rw [hset]
      have hki : k ≠ i := by
        intro hki
        subst hki
        exact havoid hk
      rw [List.getElem?_set_ne hki]
      exact hj
  | reap q status =>
    simp only [TableOp.avoids, decide_eq_true_eq] at havoid
    rcases applyTableOp_reap happ with rfl | ⟨t, rfl⟩ | ⟨k, t, hg, rfl⟩
    · exact hj
    · exact frame_deletejob (s := s.print t) hj hp havoid
    · obtain ⟨_, x, hx, hxq, _⟩ := getjobpid_some hg
      have hki : k ≠ i := by
        intro hki
        subst hki
        rw [hj] at hx
        cases hx
        exact havoid (by rw [← hxq, hp])
      show (s.jobs.modify (fun j => { j with state := ST }) k)[i]? = some j
      rw [List.getElem?_modify_ne _ _ hki]
      exact hj

theorem frame_runTableOps (ops : List TableOp) {p : Int} {i : Nat} {j : job_t}
    (hp : j.pid = p) (hp0 : p ≠ 0) :
    ∀ s s2 : Shell, s.jobs[i]? = some j → avoidsRun p i s ops = true →
      runTableOps s ops = some s2 → s2.jobs[i]? = some j := by
  induction ops with
  | nil =>
    intro s s2 hj _ hrun
    simp only [runTableOps, Option.some.injEq] at hrun
    subst hrun
    exact hj
  | cons op ops ih =>
    intro s s2 hj havoid hrun
    simp only [avoidsRun, Bool.and_eq_true] at havoid
    simp only [runTableOps] at hrun
    cases happ : applyTableOp s op with
    | none => rw [happ] at hrun; cases hrun
    | some s1 =>
      rw [happ] at hrun
      have h2 := havoid.2
      rw [happ] at h2
      exact ih s1 s2 (frame_applyTableOp hj hp hp0 havoid.1 happ) h2 hrun

/-- C13: when `addjob(p, BG, cmdline)` returns 1 and the job is in slot `i`,
then after every sequence of updates that the shell survives and none of which
resumes, stops or reaps that job (`addjob`, `deletejob` and reaper events for
other pids, `bg`/`fg` whose target does not resolve to slot `i`) slot `i` still
holds (p, the assigned job id, BG, cmdline), and `listjobs` prints for it,
between the text for the slots before and after it, exactly the line
`[jid] (p) Running cmdline`. -/
theorem bg_job_untouched (s0 : Shell) (p : Int) (c : String) (i : Nat)
    (ops : List TableOp) (s2 : Shell)
    (hadd : (addjob s0 p BG c).1 = 1)
    (hslot : (addjob s0 p BG c).2.jobs[i]? = some ⟨p, s0.nextjid, BG, c⟩)
    (havoid : avoidsRun p i (addjob s0 p BG c).2 ops = true)
    (hrun : runTableOps (addjob s0 p BG c).2 ops = some s2) :
    s2.jobs[i]? = some ⟨p, s0.nextjid, BG, c⟩
    ∧ (listjobs s2).out
        = s2.out ++ listingText 0 (s2.jobs.take i)
          ++ ("[" ++ toString s0.nextjid ++ "] (" ++ toString p ++ ") " ++ "Running " ++ c)
          ++ listingText (i + 1) (s2.jobs.drop (i + 1)) := by
  have hp1 : 1 ≤ p := (addjob_ret_one hadd).1
  have hp0 : p ≠ 0 := by omega
  have hkeep := frame_runTableOps ops (j := ⟨p, s0.nextjid, BG, c⟩) rfl hp0
    (addjob s0 p BG c).2 s2 hslot havoid hrun
  have hline := listjobs_line (j := ⟨p, s0.nextjid, BG, c⟩) hkeep hp0 rfl
  simp only [] at hline
  exact ⟨hkeep, hline⟩

/-- C13 witness: pid 300 is launched in the background on the two-job table
(slot 2, job id 3); the other jobs are stopped, resumed, launched, killed and
deleted. -/
theorem bg_job_untouched_witness :
    ((runTableOps (addjob twoJobs 300 BG "make &\n").2 otherOps).getD twoJobs).jobs[2]?
      = some ⟨300, twoJobs.nextjid, BG, "make &\n"⟩ :=
  (bg_job_untouched twoJobs 300 "make &\n" 2 otherOps
    ((runTableOps (addjob twoJobs 300 BG "make &\n").2 otherOps).getD twoJobs)
    (by decide) (by decide) (by decide) (by decide)).1

end Tsh
